import Mathlib

/-!
Verification of the py-stockfish `Stockfish` session manager
(`stockfish/models.py`) against its natural-language specification.

The Python code is shallowly embedded: pure helpers become Lean functions on
`List Char` / `String`; the engine process is an oracle parameter; Python
dynamic values are the inductive `PVal`; fallible code returns `Except` or
carries an explicit error component.  Machine integers are `Int`/`Nat`
(Python ints are unbounded, so no modular arithmetic is needed).
-/

namespace StockfishSpec

/-- A Python runtime value, restricted to the types the engine-parameter code
manipulates.  Python `bool` is a distinct constructor because the code uses
exact-type tests (`type(v) is int` is `False` for `True`), while
`isinstance(v, int)` is `True` for bools; both tests are modelled below. -/
inductive PVal where
  | vStr (s : String)
  | vInt (n : Int)
  | vBool (b : Bool)
deriving DecidableEq, Repr

/-- `isinstance(v, int)` — true for ints and bools (bool subclasses int). -/
def pyIsInstanceInt : PVal → Bool
  | .vInt _ => true
  | .vBool _ => true
  | _ => false

/-- `isinstance(v, bool)`. -/
def pyIsInstanceBool : PVal → Bool
  | .vBool _ => true
  | _ => false

/-- Numeric value used in `<`-comparisons against an int; bools compare as
0/1.  Only ever consulted after `isinstance(v, int)` has returned true (the
Python comparisons short-circuit the same way), so the `vStr` branch is
never semantically reached. -/
def pyIntVal : PVal → Int
  | .vInt n => n
  | .vBool b => if b then 1 else 0
  | .vStr _ => 0

/-! ### `Stockfish.set_depth` (models.py lines 467-478) and
`Stockfish.set_num_nodes` (lines 484-499)

Each setter either raises `TypeError` (leaving the stored value alone) or
stores the argument.  The model takes the currently stored value and returns
the stored value after the call together with the raised error, if any. -/

/-- The guard of `set_depth`:
`not isinstance(depth, int) or depth < 1 or isinstance(depth, bool)`. -/
def setDepthGuardFails (v : PVal) : Bool :=
  !(pyIsInstanceInt v) || decide (pyIntVal v < 1) || pyIsInstanceBool v

/-- `Stockfish.set_depth`. -/
def setDepth (cur : Int) (v : PVal) : Int × Option String :=
  if setDepthGuardFails v then
    (cur, some "TypeError: depth must be an integer higher than 0")
  else (pyIntVal v, none)

/-- The guard of `set_num_nodes`:
`not isinstance(num_nodes, int) or isinstance(num_nodes, bool) or num_nodes < 1`. -/
def setNumNodesGuardFails (v : PVal) : Bool :=
  !(pyIsInstanceInt v) || pyIsInstanceBool v || decide (pyIntVal v < 1)

/-- `Stockfish.set_num_nodes`. -/
def setNumNodes (cur : Int) (v : PVal) : Int × Option String :=
  if setNumNodesGuardFails v then
    (cur, some "TypeError: num_nodes must be an integer higher than 0")
  else (pyIntVal v, none)

/-- Claim-side description of the rejected arguments of C10: the argument is
a bool, is not an int, or is an int less than 1. -/
def badDepthArg : PVal → Bool
  | .vBool _ => true
  | .vInt n => decide (n < 1)
  | .vStr _ => true

/-! ### Parameter registry (`Stockfish._PARAM_RESTRICTIONS`, models.py
lines 40-56) and `Stockfish._validate_param_val` (lines 253-262) -/

/-- The Python `type` of a registry entry. -/
inductive PType where
  | tStr
  | tInt
  | tBool
deriving DecidableEq, Repr

/-- `type(value)` for the exact-type test `type(value) is required_type`. -/
def typeOf : PVal → PType
  | .vStr _ => .tStr
  | .vInt _ => .tInt
  | .vBool _ => .tBool

/-- `Stockfish._PARAM_RESTRICTIONS`: name, required type, optional inclusive
minimum and maximum.  Note the `Hash` upper bound is the constant 2048,
with no dependence on the host platform. -/
def PARAM_RESTRICTIONS : List (String × (PType × Option Int × Option Int)) :=
  [("Debug Log File", (.tStr, none, none)),
   ("Threads", (.tInt, some 1, some 1024)),
   ("Hash", (.tInt, some 1, some 2048)),
   ("Ponder", (.tBool, none, none)),
   ("MultiPV", (.tInt, some 1, some 500)),
   ("Skill Level", (.tInt, some 0, some 20)),
   ("Move Overhead", (.tInt, some 0, some 5000)),
   ("Slow Mover", (.tInt, some 10, some 1000)),
   ("UCI_Chess960", (.tBool, none, none)),
   ("UCI_LimitStrength", (.tBool, none, none)),
   ("UCI_Elo", (.tInt, some 1320, some 3190)),
   ("Contempt", (.tInt, some (-100), some 100)),
   ("Min Split Depth", (.tInt, some 0, some 12)),
   ("Minimum Thinking Time", (.tInt, some 0, some 5000)),
   ("UCI_ShowWDL", (.tBool, none, none))]

/-- Dictionary lookup in the (static, unique-keyed) registry. -/
def restrictionFor (name : String) : Option (PType × Option Int × Option Int) :=
  (PARAM_RESTRICTIONS.find? (fun p => p.1 = name)).map (·.2)

/-- `Stockfish._validate_param_val`.  Raises (returns `.error`) for unknown
names, exact-type mismatches, and out-of-range integers. -/
def validateParamVal (name : String) (value : PVal) : Except String Unit :=
  match restrictionFor name with
  | none => .error (name ++ " is not a supported engine parameter")
  | some (requiredType, minimum, maximum) =>
    if typeOf value ≠ requiredType then
      .error "value is not of the required type"
    else
      match minimum with
      | some lo =>
        if typeOf value = .tInt ∧ pyIntVal value < lo then
          .error ("value is below the minimum for " ++ name)
        else
          match maximum with
          | some hi =>
            if typeOf value = .tInt ∧ pyIntVal value > hi then
              .error ("value is over the maximum for " ++ name)
            else .ok ()
          | none => .ok ()
      | none =>
        match maximum with
        | some hi =>
          if typeOf value = .tInt ∧ pyIntVal value > hi then
            .error ("value is over the maximum for " ++ name)
          else .ok ()
        | none => .ok ()

/-! ### Python `dict` model

A Python dict is an insertion-ordered association list with unique keys:
assigning to an existing key keeps its position, assigning a fresh key
appends, `del` removes.  `update_engine_parameters` relies on this order
when it re-inserts `Threads` and `Hash` at the end of the batch. -/

/-- Association list standing for a Python `dict[str, ...]`. -/
abbrev PDict := List (String × PVal)

/-- `k in d`. -/
def dContains (d : PDict) (k : String) : Bool :=
  d.any (fun p => p.1 = k)

/-- `d[k]` as an `Option` (Python raises `KeyError` when absent). -/
def dGet (d : PDict) (k : String) : Option PVal :=
  (d.find? (fun p => p.1 = k)).map (·.2)

/-- `d[k] = v` / `d.update({k: v})`: overwrite in place, or append. -/
def dSet (d : PDict) (k : String) (v : PVal) : PDict :=
  if dContains d k then d.map (fun p => if p.1 = k then (k, v) else p)
  else d ++ [(k, v)]

/-- `del d[k]`. -/
def dDel (d : PDict) (k : String) : PDict :=
  d.filter (fun p => p.1 ≠ k)

/-- Last value bound to `k` in an association list (for a unique-keyed list
this is the value of `k`); used to state which value a batch stores. -/
def lastVal (items : List (String × PVal)) (k : String) : Option PVal :=
  (items.reverse.find? (fun p => p.1 = k)).map (·.2)

/-! ### `Stockfish.update_engine_parameters` (models.py lines 147-203)

The session state relevant here is `self._parameters` (a `PDict`).  The
observable effects are the final `_parameters` dict, the ordered list of
`setoption` commands written to the engine (modelled structurally as
name/value pairs), and the first raised error, if any.  The trailing
`set_fen_position(self.get_fen_position(), False)` re-sends the position and
does not touch `_parameters`, so it is not modelled. -/

structure UpdResult where
  params : PDict
  commands : List (String × PVal)
  error : Option String
deriving DecidableEq, Repr

/-- The validation `for key in new_param_values:` loop.  Returns the first
raised error: unknown key (only once `_parameters` is non-empty), a
non-bool value for the three bool-typed keys, or a
`_validate_param_val` failure. -/
def checkKeysLoop (cur : PDict) : List (String × PVal) → Option String
  | [] => none
  | (k, v) :: rest =>
    if 0 < cur.length ∧ ¬ dContains cur k then
      some (k ++ " is not a key that exists")
    else if (k = "Ponder" ∨ k = "UCI_Chess960" ∨ k = "UCI_LimitStrength")
        ∧ ¬ pyIsInstanceBool v then
      some (k ++ " must be given a bool value")
    else
      match validateParamVal k v with
      | .error e => some e
      | .ok _ => checkKeysLoop cur rest

/-- Strength coupling: updating exactly one of `Skill Level` / `UCI_Elo`
without an explicit `UCI_LimitStrength` adds the matching flag value to the
batch (appended at the end, since the key is absent). -/
def applyStrengthCoupling (npv : PDict) : PDict :=
  if (dContains npv "Skill Level" ≠ dContains npv "UCI_Elo")
      ∧ ¬ dContains npv "UCI_LimitStrength" then
    if dContains npv "Skill Level" then dSet npv "UCI_LimitStrength" (.vBool false)
    else if dContains npv "UCI_Elo" then dSet npv "UCI_LimitStrength" (.vBool true)
    else npv
  else npv

/-- `Threads`/`Hash` reordering: when the batch sets `Threads`, both
`Threads` and `Hash` are deleted and re-appended in that order at the end of
the batch (`Hash` falling back to its current value when the batch does not
set it; a missing current `Hash` is Python's `KeyError`). -/
def applyThreadsReorder (cur npv : PDict) : Except String PDict :=
  if dContains npv "Threads" then
    match dGet npv "Threads" with
    | none => .error "KeyError: Threads"
    | some threadsValue =>
      if dContains (dDel npv "Threads") "Hash" then
        match dGet (dDel npv "Threads") "Hash" with
        | none => .error "KeyError: Hash"
        | some hashValue =>
          .ok (dSet (dSet (dDel (dDel npv "Threads") "Hash") "Threads" threadsValue)
            "Hash" hashValue)
      else
        match dGet cur "Hash" with
        | none => .error "KeyError: Hash"
        | some hashValue =>
          .ok (dSet (dSet (dDel npv "Threads") "Threads" threadsValue) "Hash" hashValue)
  else .ok npv

/-- The `for name, value in new_param_values.items(): self._set_option(...)`
loop.  `_set_option` re-validates, writes one `setoption` command, and
updates `_parameters`; a validation failure raises immediately, keeping the
options already applied. -/
def applyOptionsLoop (params : PDict) :
    List (String × PVal) → PDict × List (String × PVal) × Option String
  | [] => (params, [], none)
  | (k, v) :: rest =>
    match validateParamVal k v with
    | .error e => (params, [], some e)
    | .ok _ =>
      let res := applyOptionsLoop (dSet params k v) rest
      (res.1, (k, v) :: res.2.1, res.2.2)

/-- The body of `update_engine_parameters` after the `if not parameters`
early return, for a non-`None` argument. -/
def updateEngineParametersSome (cur ps : PDict) : UpdResult :=
  if ps.isEmpty then ⟨cur, [], none⟩
  else
    match checkKeysLoop cur ps with
    | some e => ⟨cur, [], some e⟩
    | none =>
      match applyThreadsReorder cur (applyStrengthCoupling ps) with
      | .error e => ⟨cur, [], some e⟩
      | .ok npv2 =>
        ⟨(applyOptionsLoop cur npv2).1, (applyOptionsLoop cur npv2).2.1,
         (applyOptionsLoop cur npv2).2.2⟩

/-- `Stockfish.update_engine_parameters`.  `parameters = none` models the
Python `None` argument; `if not parameters` also returns early on `{}`. -/
def updateEngineParameters (cur : PDict) (parameters : Option PDict) : UpdResult :=
  match parameters with
  | none => ⟨cur, [], none⟩
  | some ps => updateEngineParametersSome cur ps

/-- `_DEFAULT_STOCKFISH_PARAMS` (models.py lines 77-92). -/
def DEFAULT_STOCKFISH_PARAMS : PDict :=
  [("Debug Log File", .vStr ""), ("Contempt", .vInt 0), ("Min Split Depth", .vInt 0),
   ("Threads", .vInt 1), ("Ponder", .vBool false), ("Hash", .vInt 16),
   ("MultiPV", .vInt 1), ("Skill Level", .vInt 20), ("Move Overhead", .vInt 10),
   ("Minimum Thinking Time", .vInt 20), ("Slow Mover", .vInt 100),
   ("UCI_Chess960", .vBool false), ("UCI_LimitStrength", .vBool false),
   ("UCI_Elo", .vInt 1350)]

/-! ### Python string helpers, on `List Char`

Working on `List Char` keeps every definition structurally recursive and
lets concrete inputs evaluate inside the kernel. -/

/-- The Python whitespace class (`\s`, also `str.split()` separators). -/
def pyIsSpace (c : Char) : Bool :=
  c = ' ' || c = '\t' || c = '\n' || c = '\r' || c = '\x0b' || c = '\x0c'

/-- Maximal run of characters satisfying `p` (greedy match of a character
class) and the remainder. -/
def takeRun (p : Char → Bool) : List Char → List Char × List Char
  | [] => ([], [])
  | c :: cs =>
    if p c then
      ((takeRun p cs).1.cons c, (takeRun p cs).2)
    else ([], c :: cs)

/-- Accumulator form of Python `str.split()` (no separator argument): split
on whitespace runs, discarding empty pieces. -/
def pySplitWsAux : List Char → List Char → List (List Char)
  | [], acc => if acc.isEmpty then [] else [acc.reverse]
  | c :: cs, acc =>
    if pyIsSpace c then
      if acc.isEmpty then pySplitWsAux cs [] else acc.reverse :: pySplitWsAux cs []
    else pySplitWsAux cs (c :: acc)

/-- Python `str.split()` with no argument. -/
def pySplitWs (s : List Char) : List (List Char) := pySplitWsAux s []

/-- Python `str.split(sep)` for a one-character separator: `"".split` gives
`[""]`, and every separator occurrence starts a new piece. -/
def splitOnSep (sep : Char) : List Char → List (List Char)
  | [] => [[]]
  | c :: cs =>
    if c = sep then [] :: splitOnSep sep cs
    else
      match splitOnSep sep cs with
      | [] => [[c]]
      | g :: gs => (c :: g) :: gs

/-- `"1" <= c <= "8"`. -/
def isDigit18 (c : Char) : Bool := decide ('1' ≤ c ∧ c ≤ '8')

/-- `Stockfish._PIECE_CHARS` (models.py line 38). -/
def PIECE_CHARS : List Char :=
  ['P', 'N', 'B', 'R', 'Q', 'K', 'p', 'n', 'b', 'r', 'q', 'k']

/-! ### `Stockfish._is_fen_syntax_valid` (models.py lines 590-629) -/

/-- A character of the regex class `[rnbqkpRNBQKP1-8]`. -/
def placementChar (c : Char) : Bool :=
  PIECE_CHARS.contains c || isDigit18 c

/-- `[class]+`: nonempty maximal run, returning the remainder. -/
def matchClassRun (p : Char → Bool) (s : List Char) : Option (List Char) :=
  match takeRun p s with
  | (r, rest) => if r.isEmpty then none else some rest

/-- `(?:[rnbqkpRNBQKP1-8]+/){n}`. -/
def matchSlashGroups : Nat → List Char → Option (List Char)
  | 0, s => some s
  | n + 1, s =>
    match matchClassRun placementChar s with
    | none => none
    | some rest =>
      match rest with
      | '/' :: rest2 => matchSlashGroups n rest2
      | _ => none

/-- One `\s`. -/
def matchOneSpace : List Char → Option (List Char)
  | c :: cs => if pyIsSpace c then some cs else none
  | [] => none

/-- `[b|w]` — a character class, so the literal `|` is accepted too. -/
def matchSideChar : List Char → Option (List Char)
  | c :: cs => if c = 'b' || c = '|' || c = 'w' then some cs else none
  | [] => none

/-- A character of the class `[K|Q|k|q]` (again with literal `|`). -/
def castlingChar (c : Char) : Bool :=
  c = 'K' || c = '|' || c = 'Q' || c = 'k' || c = 'q'

/-- `(-|[K|Q|k|q]{1,4})`.  Since no class character can satisfy the `\s`
that follows, greedy maximal-munch agrees with regex backtracking. -/
def matchCastling (s : List Char) : Option (List Char) :=
  match s with
  | '-' :: rest => some rest
  | _ =>
    match takeRun castlingChar s with
    | (r, rest) => if 1 ≤ r.length ∧ r.length ≤ 4 then some rest else none

/-- `(-|[a-h][1-8])`. -/
def matchEnPassant : List Char → Option (List Char)
  | '-' :: rest => some rest
  | f :: r :: rest =>
    if decide ('a' ≤ f ∧ f ≤ 'h') && decide ('1' ≤ r ∧ r ≤ '8') then some rest
    else none
  | _ => none

/-- `\d+` (ASCII digits; CPython `\d` on `str` also admits other Unicode
digits, which never occur in engine traffic). -/
def matchDigitsRun (s : List Char) : Option (List Char) :=
  match takeRun Char.isDigit s with
  | (r, rest) => if r.isEmpty then none else some rest

/-- Python `$` without MULTILINE: end of string, or just before one final
newline. -/
def matchEnd : List Char → Bool
  | [] => true
  | ['\n'] => true
  | _ => false

/-- The sequential body of the `_is_fen_syntax_valid` regex
`\s*^(((?:[rnbqkpRNBQKP1-8]+\x2f){7})[rnbqkpRNBQKP1-8]+)\s([b|w])\s(-|[K|Q|k|q]{1,4})\s(-|[a-h][1-8])\s(\d+\s\d+)$`
(models.py lines 594-597).  The leading `\s*^` can only match the empty
string because `^` anchors at position 0 without MULTILINE.  Every
quantifier is deterministic (no class contains its follow character), so
maximal munch agrees with backtracking. -/
def fenRegexTail (s : List Char) : Option (List Char) := do
  let s1 ← matchSlashGroups 7 s
  let s2 ← matchClassRun placementChar s1
  let s3 ← matchOneSpace s2
  let s4 ← matchSideChar s3
  let s5 ← matchOneSpace s4
  let s6 ← matchCastling s5
  let s7 ← matchOneSpace s6
  let s8 ← matchEnPassant s7
  let s9 ← matchOneSpace s8
  let s10 ← matchDigitsRun s9
  let s11 ← matchOneSpace s10
  let s12 ← matchDigitsRun s11
  pure s12

/-- `re.match(...)` of `_is_fen_syntax_valid` as a Bool. -/
def fenRegexMatch (s : List Char) : Bool :=
  match fenRegexTail s with
  | some rest => matchEnd rest
  | none => false

/-- `str.isdigit()` (ASCII): nonempty and all digits. -/
def pyIsDigitStr (s : List Char) : Bool :=
  !s.isEmpty && s.all Char.isDigit

/-- `int(s)` for the digit-only strings the regex admits here. -/
def digitsToNat (s : List Char) : Nat :=
  s.foldl (fun acc c => acc * 10 + (c.toNat - '0'.toNat)) 0

/-- The per-rank loop of `_is_fen_syntax_valid`: walk the rank characters
tracking the running square total (`field_sum`) and whether the previous
character was a digit (`previous_was_digit`); `none` models the early
`return False` on an adjacent digit pair or a non-whitelisted character. -/
def checkRankLoop : List Char → Bool → Nat → Option Nat
  | [], _, acc => some acc
  | c :: cs, prevWasDigit, acc =>
    if isDigit18 c then
      if prevWasDigit then none
      else checkRankLoop cs true (acc + (c.toNat - '0'.toNat))
    else if PIECE_CHARS.contains c then checkRankLoop cs false (acc + 1)
    else none

/-- One iteration of the `for fenPart in fen_fields[0].split("/")` loop:
the rank passes when the loop completes with `field_sum == 8`. -/
def checkRank (r : List Char) : Bool :=
  match checkRankLoop r false 0 with
  | some n => n == 8
  | none => false

/-- `Stockfish._is_fen_syntax_valid`: the regex gate, then the code's
`any((...))` tuple of rejections (six fields, eight ranks, both kings
present, digit counters, half-move < 2 × full-move), then the rank loop.
The regex guarantees exactly six whitespace-separated fields, so the
fallthrough `| _ => false` (Python would raise `IndexError` there) is
unreachable when the gate passed. -/
def isFenSyntaxValid (fen : String) : Bool :=
  if !fenRegexMatch fen.toList then false
  else
    match pySplitWs fen.toList with
    | [f0, _f1, _f2, _f3, f4, f5] =>
      if !((splitOnSep '/' f0).length == 8) then false
      else if !(f0.contains 'K' && f0.contains 'k') then false
      else if !(pyIsDigitStr f4 && pyIsDigitStr f5) then false
      else if digitsToNat f4 ≥ digitsToNat f5 * 2 then false
      else (splitOnSep '/' f0).all checkRank
    | _ => false

/-! Claim-side formulations for C6, written from the claim's wording and
compared against the code's checker. -/

/-- Claim-side: number of whitespace-separated fields. -/
def fenFieldCount (fen : String) : Nat := (pySplitWs fen.toList).length

/-- Claim-side: the piece-placement ranks of a FEN string. -/
def fenRanks (fen : String) : List (List Char) :=
  match pySplitWs fen.toList with
  | f0 :: _ => splitOnSep '/' f0
  | [] => []

/-- Claim-side square total of a rank: a digit `1..8` contributes its value,
a whitelisted piece letter contributes one, anything else invalidates. -/
def rankSquares : List Char → Option Nat
  | [] => some 0
  | c :: cs =>
    if isDigit18 c then (rankSquares cs).map (fun n => n + (c.toNat - '0'.toNat))
    else if PIECE_CHARS.contains c then (rankSquares cs).map (fun n => n + 1)
    else none

/-- Claim-side: no two adjacent digit characters within a rank. -/
def noAdjacentDigits : List Char → Bool
  | c :: c2 :: cs => !(isDigit18 c && isDigit18 c2) && noAdjacentDigits (c2 :: cs)
  | _ => true

/-- Claim-side: occurrence count of a character (for the king counts). -/
def countChar (s : List Char) (c : Char) : Nat :=
  (s.filter (fun x => x = c)).length

/-! ### `Stockfish.make_moves_from_current_position` (models.py lines
334-351)

Chess legality is decided by the engine, which the spec keeps out of scope
(`is_move_correct` runs a `go depth 1 searchmoves <move>` query, and
`position fen <fen> moves <move>` makes the engine compute the successor
position).  The engine therefore enters the model as an oracle
`legal fen move`, valued `some fen2` when the engine accepts `move` at
`fen` — `fen2` being the position it then holds — and `none` when it
rejects the move. -/

/-- Engine verdict oracle: legality plus successor FEN. -/
def MoveOracle : Type := String → String → Option String

/-- Observable outcome of one `make_moves_from_current_position` call: the
FEN the session holds afterwards, and the move named by the raised
`ValueError("Cannot make move: <move>")`, if any. -/
structure MakeMovesResult where
  fen : String
  errorMove : Option String
deriving DecidableEq, Repr

/-- The `for move in moves` loop: each move is validated with
`is_move_correct` and, when legal, immediately applied to the engine
position before the next one is examined. -/
def makeMovesLoop (legal : MoveOracle) : String → List String → MakeMovesResult
  | fen, [] => ⟨fen, none⟩
  | fen, m :: ms =>
    match legal fen m with
    | none => ⟨fen, some m⟩
    | some fen2 => makeMovesLoop legal fen2 ms

/-- `Stockfish.make_moves_from_current_position` (`none` models the Python
`None` argument; `if not moves` also returns early on `[]`). -/
def makeMovesFromCurrentPosition (legal : MoveOracle) (fen : String) :
    Option (List String) → MakeMovesResult
  | none => ⟨fen, none⟩
  | some [] => ⟨fen, none⟩
  | some moves => makeMovesLoop legal fen moves

/-- Claim-side: the FEN reached by replaying a list of engine-accepted moves
in order (`none` when some move in the list is rejected on the way). -/
def chainFen (legal : MoveOracle) : String → List String → Option String
  | fen, [] => some fen
  | fen, m :: ms =>
    match legal fen m with
    | none => none
    | some fen2 => chainFen legal fen2 ms

/-- Concrete oracle for the C1 counterexample: at position `"F0"` the move
`"m1"` is legal and leads to `"F1"`; every other move is illegal. -/
def c1Oracle : MoveOracle := fun fen m =>
  if fen = "F0" ∧ m = "m1" then some "F1" else none

/-! ### `Stockfish.is_fen_valid` (models.py lines 631-661) -/

/-- Outcome of the disposable sub-session's shallow search: either the
engine process died (the `StockfishException` raised by `_read_line`, the
only raising point inside the `try` block), or a parsed best move (`none`
standing for the `bestmove (none)` sentinel of a stalled position). -/
inductive SemanticOutcome where
  | crashed
  | bestMove (m : Option String)
deriving DecidableEq, Repr

/-- Observable effects of one `is_fen_valid` call. -/
structure FenValidRun where
  returned : Bool
  raised : Bool
  sessionCreated : Bool
  sessionTornDown : Bool
deriving DecidableEq, Repr

/-- `Stockfish.is_fen_valid`: the pure syntactic gate first; on success a
disposable sub-session (separate process, `Hash: 1`) is created and a
`go depth 10` search is attempted on the candidate FEN.  The
`try/except/else/finally` runs `temp_sf.__del__()` on both the crash exit
(which returns `False`) and the normal exit (which returns whether a best
move exists); no exception escapes. -/
def isFenValid (fen : String) (outcome : SemanticOutcome) : FenValidRun :=
  if !(isFenSyntaxValid fen) then ⟨false, false, false, false⟩
  else
    match outcome with
    | .crashed => ⟨false, false, true, true⟩
    | .bestMove m => ⟨m.isSome, false, true, true⟩

/-! ### `Stockfish.get_perft` (models.py lines 945-980) -/

/-- `p` is an initial segment of `s` (regex-free matcher used for substring
containment). -/
def startsWithSeq : List Char → List Char → Bool
  | [], _ => true
  | _ :: _, [] => false
  | p :: ps, c :: cs => p = c && startsWithSeq ps cs

/-- Python `pat in line` substring containment. -/
def containsSub (pat : List Char) : List Char → Bool
  | [] => startsWithSeq pat []
  | c :: cs => startsWithSeq pat (c :: cs) || containsSub pat cs

/-- All-digit nonempty string value. -/
def digitsVal? (ds : List Char) : Option Nat :=
  if !ds.isEmpty && ds.all Char.isDigit then some (digitsToNat ds) else none

/-- Python `int(s)` on a string: optional surrounding whitespace, optional
sign, at least one digit (CPython also accepts digit-grouping underscores
and non-ASCII digits, which never occur in engine output). -/
def pyInt (s : List Char) : Option Int :=
  match ((s.dropWhile pyIsSpace).reverse.dropWhile pyIsSpace).reverse with
  | '-' :: ds => (digitsVal? ds).map (fun n => -(n : Int))
  | '+' :: ds => (digitsVal? ds).map (fun n => (n : Int))
  | ds => (digitsVal? ds).map (fun n => (n : Int))

/-- The read loop of `get_perft`: empty lines are skipped; a line containing
`"searched"` terminates the loop, its total taken from
`int(line.split(":")[1])`; any other line must unpack as `move, num =
line.split(":")` (exactly two pieces), pass
`assert move not in move_possibilities`, and parse `int(num)`.  The result
carries the total, the breakdown in insertion order, and the unconsumed
lines; exhausting the input models `_read_line` failing on a dead channel. -/
def perftLoop : List (List Char) → List (List Char × Int) →
    Except String (Int × List (List Char × Int) × List (List Char))
  | [], _ => .error "EngineCrashed"
  | line :: rest, acc =>
    if line.isEmpty then perftLoop rest acc
    else if containsSub ("searched".toList) line then
      match (splitOnSep ':' line).get? 1 with
      | none => .error "IndexError"
      | some part =>
        match pyInt part with
        | none => .error "ValueError: invalid int"
        | some n => .ok (n, acc, rest)
    else
      match splitOnSep ':' line with
      | [mv, num] =>
        if acc.any (fun p => p.1 = mv) then .error "AssertionError: duplicate move"
        else
          match pyInt num with
          | none => .error "ValueError: invalid int"
          | some n => perftLoop rest (acc ++ [(mv, n)])
      | _ => .error "ValueError: unpack"

/-- `Stockfish.get_perft`: the depth type check (same guard as `set_depth`),
`go perft <depth>`, the read loop, then one final `_read_line()` consuming
the trailing blank line the engine emits. -/
def getPerft (depth : PVal) (lines : List (List Char)) :
    Except String (Int × List (List Char × Int)) :=
  if setDepthGuardFails depth then
    .error "TypeError: depth must be an integer higher than 0"
  else
    match perftLoop lines [] with
    | .error e => .error e
    | .ok (n, acc, rest) =>
      match rest with
      | [] => .error "EngineCrashed"
      | _ :: _ => .ok (n, acc)

/-- Claim-side: sum of the per-move leaf counts in a perft breakdown. -/
def perftMoveSum (acc : List (List Char × Int)) : Int :=
  (acc.map (·.2)).sum

/-! ### `Stockfish.get_top_moves` (models.py lines 804-943) -/

/-- The session state `get_top_moves` reads and mutates: `_parameters`
(for `MultiPV`), `_num_nodes`, `_depth`, `_turn_perspective`, the current
FEN (as `get_fen_position` reports it, for the perspective sign), and
whether the engine advertises WDL (probed once via the `uci` option
listing; only consulted on the verbose path). -/
structure TopState where
  params : PDict
  numNodes : Int
  depth : Int
  turnPerspective : Bool
  fen : String
  hasWdl : Bool
deriving DecidableEq, Repr

/-- One entry of the returned list (`Move`/`Centipawn`/`Mate` plus the
verbose fields; the verbose picks are stored as the raw token strings,
exactly as the code stores `self._pick(...)` results). -/
structure MoveEval where
  move : String
  centipawn : Option Int
  mate : Option Int
  time : Option String := none
  nodes : Option String := none
  multiPVLine : Option String := none
  nps : Option String := none
  seldepth : Option String := none
  wdl : Option String := none
deriving DecidableEq, Repr

/-- Python `line.split(" ")` (explicit single-space separator, keeping
empty pieces), as applied to each raw engine output line. -/
def pySplitSpace (l : String) : List String :=
  (splitOnSep ' ' l.toList).map (fun t => String.mk t)

/-- `Stockfish._pick` (models.py line 986):
`line[line.index(value) + index]`; `none` models both the `ValueError` of
`list.index` and an out-of-range `IndexError`. -/
def pick (line : List String) (value : String) (index : Nat) : Option String :=
  match line.findIdx? (fun w => w = value) with
  | none => none
  | some i => line.get? (i + index)

/-- `_pick` with the raised exceptions made explicit. -/
def pickE (line : List String) (value : String) (index : Nat) :
    Except String String :=
  match pick line value index with
  | none => .error "ValueError: pick"
  | some s => .ok s

/-- `int(self._pick(line, value))`. -/
def pickInt (line : List String) (value : String) : Except String Int :=
  match pick line value 1 with
  | none => .error "ValueError: pick"
  | some s =>
    match pyInt s.toList with
    | none => .error "ValueError: invalid int"
    | some n => .ok n

/-- Python `" ".join`. -/
def joinSpace : List String → String
  | [] => ""
  | [s] => s
  | s :: rest => s ++ " " ++ joinSpace rest

/-- Building one `move_evaluation` dictionary from an `info` line:
`Move` from the `pv` token, `Centipawn`/`Mate` (perspective-signed) when
present; on the verbose path also `Time`, `Nodes`, `MultiPVLine`,
`NodesPerSecond`, `SelectiveDepth`, and — when the engine has the WDL
option — the perspective-ordered `wdl` triple joined with spaces. -/
def buildMoveEval (hasWdl : Bool) (persp : Int) (verbose : Bool)
    (line : List String) : Except String MoveEval := do
  let mv ← pickE line "pv" 1
  let cp ←
    if line.contains "cp" then
      (pickInt line "cp").map (fun n => some (n * persp))
    else pure none
  let mate ←
    if line.contains "mate" then
      (pickInt line "mate").map (fun n => some (n * persp))
    else pure none
  if verbose then
    let t ← pickE line "time" 1
    let nd ← pickE line "nodes" 1
    let mpv ← pickE line "multipv" 1
    let nps ← pickE line "nps" 1
    let sd ← pickE line "seldepth" 1
    if hasWdl then
      let w1 ← pickE line "wdl" 1
      let w2 ← pickE line "wdl" 2
      let w3 ← pickE line "wdl" 3
      let wdlStr := joinSpace (if persp = 1 then [w1, w2, w3] else [w3, w2, w1])
      pure ⟨mv, cp, mate, some t, some nd, some mpv, some nps, some sd, some wdlStr⟩
    else
      pure ⟨mv, cp, mate, some t, some nd, some mpv, some nps, some sd, none⟩
  else
    pure ⟨mv, cp, mate, none, none, none, none, none, none⟩

/-- The `for line in reversed(lines)` loop of `get_top_moves`: a
`bestmove (none)` line empties the result and stops; a line without
`multipv`/`depth` tokens stops; a depth search stops at the first line whose
`depth` differs from the configured depth; a node search stops at the first
line with fewer nodes than the (overridden) node budget; every other line
contributes one entry inserted at the front. -/
def topMovesLoop (st : TopState) (numNodesArg : Int) (persp : Int)
    (verbose : Bool) : List (List String) → List MoveEval →
    Except String (List MoveEval)
  | [], acc => .ok acc
  | line :: rls, acc =>
    match line with
    | [] => .error "IndexError: line[0]"
    | w0 :: ws =>
      if w0 = "bestmove" then
        match ws with
        | [] => .error "IndexError: line[1]"
        | w1 :: _ =>
          if w1 = "(none)" then .ok []
          else topMovesLoop st numNodesArg persp verbose rls acc
      else if !(line.contains "multipv") || !(line.contains "depth") then
        .ok acc
      else do
        let brkDepth ←
          if numNodesArg = 0 then
            (pickInt line "depth").map (fun dv => decide (dv ≠ st.depth))
          else pure false
        if brkDepth then pure acc
        else do
          let brkNodes ←
            if numNodesArg > 0 then
              (pickInt line "nodes").map (fun nv => decide (nv < st.numNodes))
            else pure false
          if brkNodes then pure acc
          else do
            let me ← buildMoveEval st.hasWdl persp verbose line
            topMovesLoop st numNodesArg persp verbose rls (me :: acc)

/-- The `MultiPV` override: `if num_top_moves != self._parameters["MultiPV"]:
self._set_option("MultiPV", num_top_moves)` (validation first — a failure
raises before any mutation). -/
def setMultiPVIfNeeded (st : TopState) (numTopMoves : Int) (oldMultiPV : PVal) :
    Except String TopState :=
  if PVal.vInt numTopMoves ≠ oldMultiPV then
    match validateParamVal "MultiPV" (.vInt numTopMoves) with
    | .error e => .error e
    | .ok _ => .ok { st with params := dSet st.params "MultiPV" (.vInt numTopMoves) }
  else .ok st

/-- `1 if self.get_turn_perspective() or ("w" in self.get_fen_position())
else -1`. -/
def perspectiveSign (st : TopState) : Int :=
  if st.turnPerspective || containsSub ("w".toList) st.fen.toList then 1 else -1

/-- The `MultiPV` restoration: `if old_multipv != self._parameters["MultiPV"]:
self._set_option("MultiPV", old_multipv)`. -/
def restoreMultiPV (st : TopState) (oldMultiPV : PVal) : Except String TopState :=
  match dGet st.params "MultiPV" with
  | none => .error "KeyError: MultiPV"
  | some curMultiPV =>
    if oldMultiPV ≠ curMultiPV then
      match validateParamVal "MultiPV" oldMultiPV with
      | .error e => .error e
      | .ok _ => .ok { st with params := dSet st.params "MultiPV" oldMultiPV }
    else .ok st

/-- The node-budget restoration:
`if old_num_nodes != self._num_nodes: self._num_nodes = old_num_nodes`. -/
def restoreNumNodes (oldNumNodes : Int) (st : TopState) : TopState :=
  if oldNumNodes ≠ st.numNodes then { st with numNodes := oldNumNodes } else st

/-- `Stockfish.get_top_moves`: positivity check on `num_top_moves`, save the
configured `MultiPV` and node budget, override them as requested, dispatch
the search (`go depth` when `num_nodes == 0`, else set `_num_nodes` and
`go nodes`), parse the engine output lines (split at spaces) in reverse,
then restore `MultiPV` and `_num_nodes`.  `lines` is the raw output of
`_get_sf_go_command_output`. -/
def getTopMoves (st : TopState) (lines : List String)
    (numTopMoves : Int) (verbose : Bool) (numNodesArg : Int) :
    Except String (TopState × List MoveEval) :=
  if numTopMoves ≤ 0 then
    .error "ValueError: num_top_moves is not a positive number."
  else
    match dGet st.params "MultiPV" with
    | none => .error "KeyError: MultiPV"
    | some oldMultiPV =>
      match setMultiPVIfNeeded st numTopMoves oldMultiPV with
      | .error e => .error e
      | .ok st1 =>
        match
          (if numNodesArg = 0 then st1 else { st1 with numNodes := numNodesArg })
        with
        | st2 =>
          match topMovesLoop st2 numNodesArg (perspectiveSign st2) verbose
              ((lines.map pySplitSpace).reverse) [] with
          | .error e => .error e
          | .ok top =>
            match restoreMultiPV st2 oldMultiPV with
            | .error e => .error e
            | .ok st3 => .ok (restoreNumNodes st.numNodes st3, top)

/-- Session state for the C3 witness: default parameters, the default node
budget and depth, turn perspective on, initial position, no WDL. -/
def c3State : TopState :=
  ⟨DEFAULT_STOCKFISH_PARAMS, 1000000, 15, true,
   "rnbqkbnr/pppppppp/8/8/8/8/PPPPPPPP/RNBQKBNR w KQkq - 0 1", false⟩

/-! ### Version parsing (`Stockfish._parse_stockfish_version`, models.py
lines 1104-1155, and `_get_stockfish_version_from_build_date`, lines
1157-1181)

Dates are encoded as `year * 10000 + month * 100 + day`; for the valid
calendar dates `datetime.strptime` accepts, comparison in this encoding
agrees with `datetime` comparison. -/

/-- `Stockfish._RELEASES` (models.py lines 26-36), in dict insertion
order. -/
def RELEASES : List (String × Nat) :=
  [("16.0", 20230630), ("15.1", 20221204), ("15.0", 20220418),
   ("14.1", 20211028), ("14.0", 20210702), ("13.0", 20210219),
   ("12.0", 20200902), ("11.0", 20200118), ("10.0", 20181129)]

/-- The selection loop of `_get_stockfish_version_from_build_date`: scan
the table in order keeping the qualifying entry (`value <= date_object`)
with the strictly greatest date, the first-encountered entry winning ties
(the table's dates are distinct, so ties cannot occur). -/
def findReleaseLoop : List (String × Nat) → Nat → Option (String × Nat) →
    Option (String × Nat)
  | [], _, best => best
  | (k, v) :: rest, date, best =>
    if v ≤ date then
      match best with
      | none => findReleaseLoop rest date (some (k, v))
      | some (k0, v0) =>
        if v > v0 then findReleaseLoop rest date (some (k, v))
        else findReleaseLoop rest date (some (k0, v0))
    else findReleaseLoop rest date best

/-- `Stockfish._get_stockfish_version_from_build_date`. -/
def getStockfishVersionFromBuildDate (date : Nat) : Except String String :=
  match findReleaseLoop RELEASES date none with
  | none => .error "There was a problem with finding the release associated with the engine publish date."
  | some (k, _) => .ok k

def isLeapYear (y : Nat) : Bool :=
  (y % 4 = 0 && y % 100 ≠ 0) || y % 400 = 0

def daysInMonth (y m : Nat) : Nat :=
  if m = 2 then (if isLeapYear y then 29 else 28)
  else if m = 4 || m = 6 || m = 9 || m = 11 then 30
  else 31

/-- `datetime.datetime.strptime(_, "%Y-%m-%d")` succeeds exactly on real
calendar dates with year ≥ 1 (year ≤ 9999 is forced by the slices that
produce it). -/
def validDate (y m d : Nat) : Bool :=
  1 ≤ y && y ≤ 9999 && 1 ≤ m && m ≤ 12 && 1 ≤ d && d ≤ daysInMonth y m

def encodeDate (y m d : Nat) : Nat := y * 10000 + m * 100 + d

/-- Python slice `s[a:b]`. -/
def pySlice (s : List Char) (a b : Nat) : List Char := (s.take b).drop a

/-- The `self._version` record: `full = major + minor / 10` as the code's
arithmetic states (modelled in `ℚ`; Python computes it in floating point). -/
structure SFVersion where
  full : ℚ
  major : Int
  minor : Int
  patch : List Char
  sha : List Char
  isDevBuild : Bool
  text : List Char
deriving DecidableEq, Repr

def mkVersion (patch sha : List Char) (isDev : Bool) (text : List Char)
    (maj minr : Int) : SFVersion :=
  ⟨(maj : ℚ) + (minr : ℚ) / 10, maj, minr, patch, sha, isDev, text⟩

/-- The `dev-YYYYMMDD-sha` date resolution: `int` the year/month/day slices
of the build date, format into `YYYY-MM-DD`, `strptime` it (the `validDate`
guard), then look the date up in the release table. -/
def resolveDevDate (bd : List Char) : Except String String :=
  match pyInt (pySlice bd 0 4), pyInt (pySlice bd 4 6), pyInt (pySlice bd 6 8) with
  | some y, some m, some d =>
    if 0 ≤ y ∧ 0 ≤ m ∧ 0 ≤ d ∧ validDate y.toNat m.toNat d.toNat = true then
      getStockfishVersionFromBuildDate (encodeDate y.toNat m.toNat d.toNat)
    else .error "ValueError: strptime"
  | _, _, _ => .error "ValueError: invalid int"

/-- The bare 6-character `DDMMYY` date resolution: splice the slices into
`20YY-MM-DD` and `strptime` that string (digits checked by the parse). -/
def resolveDDMMYY (bd : List Char) : Except String String :=
  match digitsVal? (pySlice bd 4 6), digitsVal? (pySlice bd 2 4),
      digitsVal? (pySlice bd 0 2) with
  | some y2, some m, some d =>
    if validDate (2000 + y2) m d then
      getStockfishVersionFromBuildDate (encodeDate (2000 + y2) m d)
    else .error "ValueError: strptime"
  | _, _, _ => .error "ValueError: strptime"

/-- The `dev-` branch (models.py lines 1117-1129): parse patch and sha from
`text.split("-")[1]` / `[2]`, resolve the build date, and replace the
version text with the resolved release. -/
def versionStage1 (versionText : List Char) :
    Except String (Bool × List Char × List Char × List Char) :=
  if startsWithSeq ("dev-".toList) versionText then
    match (splitOnSep '-' versionText).get? 1, (splitOnSep '-' versionText).get? 2 with
    | some p1, some p2 =>
      match resolveDevDate p1 with
      | .error e => .error e
      | .ok resolved => .ok (true, p1, p2, resolved.toList)
    | _, _ => .error "IndexError"
  else .ok (false, [], [], versionText)

/-- The 6-character branch (models.py lines 1131-1143). -/
def versionStage2 (isDev1 : Bool) (patch1 text1 : List Char) :
    Except String (Bool × List Char × List Char) :=
  if text1.length = 6 then
    match resolveDDMMYY text1 with
    | .error e => .error e
    | .ok resolved => .ok (true, text1, resolved.toList)
  else .ok (isDev1, patch1, text1)

/-- `major`/`minor` extraction (models.py lines 1145-1150):
`int(text.split(".")[0])`, and `int(text.split(".")[1])` with the
`except IndexError: minor = 0` fallback (a present-but-non-numeric minor
still raises). -/
def parseMajorMinor (text : List Char) : Except String (Int × Int) :=
  match (splitOnSep '.' text).get? 0 with
  | none => .error "IndexError"
  | some majStr =>
    match pyInt majStr with
    | none => .error "ValueError"
    | some maj =>
      match (splitOnSep '.' text).get? 1 with
      | none => .ok (maj, 0)
      | some minStr =>
        match pyInt minStr with
        | none => .error "ValueError"
        | some minr => .ok (maj, minr)

/-- `Stockfish._parse_stockfish_version` body; any exception inside the
Python `try` is collapsed by the caller into the generic parse error. -/
def parseVersionInner (versionText : List Char) : Except String SFVersion :=
  match versionStage1 versionText with
  | .error e => .error e
  | .ok (isDev1, patch1, sha1, text1) =>
    match versionStage2 isDev1 patch1 text1 with
    | .error e => .error e
    | .ok (isDev2, patch2, text2) =>
      match parseMajorMinor text2 with
      | .error e => .error e
      | .ok (maj, minr) => .ok (mkVersion patch2 sha1 isDev2 text2 maj minr)

/-- `Stockfish._parse_stockfish_version` with its `except Exception`
wrapper. -/
def parseStockfishVersion (versionText : List Char) : Except String SFVersion :=
  match parseVersionInner versionText with
  | .ok v => .ok v
  | .error _ => .error "Unable to parse Stockfish version. You may be using an unsupported version of Stockfish."

/-- The line a perft move produces, `<move>:<count-text>`. -/
def mkMoveLine (p : List Char × List Char × Int) : List Char :=
  p.1 ++ ':' :: p.2.1

/-! ### Dictionary lemmas -/

theorem find?_map_overwrite (d : PDict) (k : String) (v : PVal) :
    ((d.map (fun p => if p.1 = k then (k, v) else p)).find? (fun p => p.1 = k)) =
      ((d.find? (fun p => p.1 = k)).map (fun _ => (k, v))) := by
  induction d with
  | nil => rfl
  | cons p rest ih =>
    by_cases hp : p.1 = k
    · simp [List.find?, hp]
    · simp [List.find?, hp, ih]

theorem find?_map_overwrite_ne (d : PDict) (k k' : String) (v : PVal)
    (h : k' ≠ k) :
    ((d.map (fun p => if p.1 = k then (k, v) else p)).find? (fun p => p.1 = k')) =
      (d.find? (fun p => p.1 = k')) := by
  induction d with
  | nil => rfl
  | cons p rest ih =>
    by_cases hp : p.1 = k
    · have : ¬ p.1 = k' := by rw [hp]; exact fun hh => h hh.symm
      simp [List.find?, hp, h.symm, this, ih]
    · by_cases hp' : p.1 = k'
      · simp [List.find?, hp, hp', h]
      · simp [List.find?, hp, hp', ih]

theorem find?_eq_none_of_not_dContains (d : PDict) (k : String)
    (h : dContains d k = false) : d.find? (fun p => p.1 = k) = none := by
  rw [List.find?_eq_none]
  intro p hp
  simp only [dContains, List.any_eq_false] at h
  simpa using h p hp

theorem find?_isSome_of_dContains (d : PDict) (k : String)
    (h : dContains d k = true) : (d.find? (fun p => p.1 = k)).isSome := by
  induction d with
  | nil => simp [dContains] at h
  | cons p rest ih =>
    by_cases hp : p.1 = k
    · simp [List.find?, hp]
    · have h2 : dContains rest k = true := by
        simp only [dContains, List.any_cons, hp] at h ⊢
        simpa using h
      simp only [List.find?, hp]
      simpa using ih h2

theorem dGet_dSet_same (d : PDict) (k : String) (v : PVal) :
    dGet (dSet d k v) k = some v := by
  unfold dSet dGet
  by_cases hc : dContains d k
  · simp only [hc, if_true, find?_map_overwrite]
    have := find?_isSome_of_dContains d k hc
    cases hf : d.find? (fun p => p.1 = k) with
    | none => rw [hf] at this; simp at this
    | some p => simp [hf]
  · simp only [hc, if_false, List.find?_append, Bool.false_eq_true,
      find?_eq_none_of_not_dContains d k (by simpa using hc)]
    simp [List.find?]

theorem dGet_dSet_ne (d : PDict) (k k' : String) (v : PVal) (h : k' ≠ k) :
    dGet (dSet d k v) k' = dGet d k' := by
  unfold dSet dGet
  by_cases hc : dContains d k
  · simp [hc, find?_map_overwrite_ne d k k' v h]
  · simp [hc, List.find?_append, List.find?, h, Ne.symm h]

theorem dContains_append (l1 l2 : PDict) (k : String) :
    dContains (l1 ++ l2) k = (dContains l1 k || dContains l2 k) := by
  simp [dContains]

theorem dContains_dDel_self (l : PDict) (k : String) :
    dContains (dDel l k) k = false := by
  simp only [dContains, dDel, List.any_eq_false]
  intro p hp
  simp only [List.mem_filter] at hp
  simpa using hp.2

theorem dContains_eq_true_of_dDel (l : PDict) (k k' : String)
    (h : dContains (dDel l k') k = true) : dContains l k = true := by
  simp only [dContains, dDel, List.any_eq_true] at h ⊢
  obtain ⟨p, hp, hpk⟩ := h
  exact ⟨p, (List.mem_filter.mp hp).1, hpk⟩

theorem keys_ne_of_not_dContains (l : PDict) (k : String)
    (h : dContains l k = false) : ∀ p ∈ l, p.1 ≠ k := by
  intro p hp
  simp only [dContains, List.any_eq_false] at h
  simpa using h p hp

theorem dContains_dSet_ne (l : PDict) (k k' : String) (v : PVal) (h : k' ≠ k) :
    dContains (dSet l k v) k' = dContains l k' := by
  unfold dSet
  by_cases hc : dContains l k = true
  · rw [if_pos hc]
    simp only [dContains, List.any_map]
    congr 1
    funext p
    by_cases hp : p.1 = k
    · simp [Function.comp, hp, Ne.symm h]
    · simp [Function.comp, hp]
  · rw [if_neg hc, dContains_append]
    simp [dContains, List.any_cons, Ne.symm h]

theorem lastVal_nil (k : String) : lastVal [] k = none := rfl

theorem lastVal_append_pair (l : PDict) (k : String) (v : PVal) :
    lastVal (l ++ [(k, v)]) k = some v := by
  simp [lastVal, List.find?]

theorem lastVal_append_pair_ne (l : PDict) (k k1 : String) (v1 : PVal)
    (h : k ≠ k1) :
    lastVal (l ++ [(k1, v1)]) k = lastVal l k := by
  simp [lastVal, List.find?, Ne.symm h]

theorem find?_filter_ne (l : PDict) (k k' : String) (h : k ≠ k') :
    (l.filter (fun p => p.1 ≠ k')).find? (fun p => p.1 = k) =
      l.find? (fun p => p.1 = k) := by
  induction l with
  | nil => rfl
  | cons p rest ih =>
    rw [List.filter_cons]
    by_cases hp : p.1 = k'
    · have hpk : p.1 ≠ k := by rw [hp]; exact fun hh => h hh.symm
      have h2 : List.find? (fun q : String × PVal => decide (q.1 = k)) (p :: rest)
          = List.find? (fun q : String × PVal => decide (q.1 = k)) rest := by
        simp [List.find?, hpk]
      rw [if_neg (by simp [hp]), h2]
      exact ih
    · by_cases hpk : p.1 = k
      · have h2 : List.find? (fun q : String × PVal => decide (q.1 = k)) (p :: rest)
            = some p := by
          simp [List.find?, hpk]
        have h3 : List.find? (fun q : String × PVal => decide (q.1 = k))
            (p :: rest.filter (fun q => q.1 ≠ k')) = some p := by
          simp [List.find?, hpk]
        rw [if_pos (by simp [hp]), h2, h3]
      · have h2 : List.find? (fun q : String × PVal => decide (q.1 = k)) (p :: rest)
            = List.find? (fun q : String × PVal => decide (q.1 = k)) rest := by
          simp [List.find?, hpk]
        have h3 : List.find? (fun q : String × PVal => decide (q.1 = k))
            (p :: rest.filter (fun q => q.1 ≠ k'))
            = List.find? (fun q : String × PVal => decide (q.1 = k))
              (rest.filter (fun q => q.1 ≠ k')) := by
          simp [List.find?, hpk]
        rw [if_pos (by simp [hp]), h2, h3]
        exact ih

theorem lastVal_dDel_ne (l : PDict) (k k' : String) (h : k ≠ k') :
    lastVal (dDel l k') k = lastVal l k := by
  unfold lastVal dDel
  rw [← List.filter_reverse, find?_filter_ne _ _ _ h]

theorem lastVal_eq_none_of_not_dContains (l : PDict) (k : String)
    (h : dContains l k = false) : lastVal l k = none := by
  unfold lastVal
  rw [find?_eq_none_of_not_dContains]
  · rfl
  · simp only [dContains, List.any_eq_false] at h ⊢
    intro p hp
    exact h p (List.mem_reverse.mp hp)

theorem lastVal_eq_dGet_of_nodup (l : PDict) (k : String)
    (hnd : (l.map Prod.fst).Nodup) : lastVal l k = dGet l k := by
  induction l with
  | nil => rfl
  | cons p rest ih =>
    simp only [List.map_cons, List.nodup_cons] at hnd
    by_cases hp : p.1 = k
    · have hrest : dContains rest k = false := by
        simp only [dContains, List.any_eq_false]
        intro q hq
        simp only [decide_eq_true_eq]
        intro hqk
        exact hnd.1 (by rw [← hp] at hqk; rw [← hqk]; exact List.mem_map_of_mem _ hq)
      have h1 : lastVal (p :: rest) k = some p.2 := by
        unfold lastVal
        rw [List.reverse_cons, List.find?_append,
          find?_eq_none_of_not_dContains _ k (by
            simp only [dContains, List.any_eq_false] at hrest ⊢
            intro q hq
            exact hrest q (List.mem_reverse.mp hq))]
        simp [List.find?, hp]
      rw [h1]
      simp [dGet, List.find?, hp]
    · have h1 : lastVal (p :: rest) k = lastVal rest k := by
        unfold lastVal
        rw [List.reverse_cons, List.find?_append]
        simp [List.find?, hp]
      rw [h1, ih hnd.2]
      simp [dGet, List.find?, hp]

theorem dGet_foldl_dSet (items : List (String × PVal)) (d : PDict) (k : String) :
    dGet (items.foldl (fun d p => dSet d p.1 p.2) d) k =
      (lastVal items k).or (dGet d k) := by
  induction items generalizing d with
  | nil => simp [lastVal]
  | cons p rest ih =>
    rw [List.foldl_cons, ih]
    have hsplit : lastVal (p :: rest) k =
        (lastVal rest k).or (if p.1 = k then some p.2 else none) := by
      unfold lastVal
      rw [List.reverse_cons, List.find?_append]
      cases hr : rest.reverse.find? (fun q => q.1 = k) with
      | none => by_cases hp : p.1 = k <;> simp [List.find?, hp]
      | some q => simp [List.find?]
    rw [hsplit]
    cases hr : lastVal rest k with
    | some v => simp
    | none =>
      by_cases hp : p.1 = k
      · have : dSet d p.1 p.2 = dSet d k p.2 := by rw [hp]
        simp [this, hp, dGet_dSet_same]
      · simp [hp, dGet_dSet_ne d p.1 k p.2 (fun hh => hp hh.symm)]

theorem applyOptionsLoop_params_of_ok (items : List (String × PVal)) :
    ∀ params, (applyOptionsLoop params items).2.2 = none →
      (applyOptionsLoop params items).1 =
        items.foldl (fun d p => dSet d p.1 p.2) params := by
  induction items with
  | nil => intro params _; rfl
  | cons p rest ih =>
    intro params h
    obtain ⟨k, v⟩ := p
    unfold applyOptionsLoop at h ⊢
    cases hv : validateParamVal k v with
    | error e => rw [hv] at h; exact Option.noConfusion h
    | ok u => rw [hv] at h; exact ih (dSet params k v) h

theorem applyOptionsLoop_cmds_take (items : List (String × PVal)) :
    ∀ params, ∃ n, (applyOptionsLoop params items).2.1 = items.take n := by
  induction items with
  | nil => intro params; exact ⟨0, rfl⟩
  | cons p rest ih =>
    intro params
    obtain ⟨k, v⟩ := p
    unfold applyOptionsLoop
    cases hv : validateParamVal k v with
    | error e => exact ⟨0, rfl⟩
    | ok u =>
      obtain ⟨n, hn⟩ := ih (dSet params k v)
      exact ⟨n + 1, by simp [hn]⟩

theorem dSet_append_of_not_dContains (l : PDict) (k : String) (v : PVal)
    (h : dContains l k = false) : dSet l k v = l ++ [(k, v)] := by
  unfold dSet
  rw [if_neg (by simp [h])]

theorem upd_bad_contains_dDel (npv : PDict) (k k' : String)
    (h : dContains npv k = false ∨ k = k') :
    dContains (dDel npv k') k = false := by
  cases h1 : dContains (dDel npv k') k with
  | false => rfl
  | true =>
    rcases h with h | h
    · rw [dContains_eq_true_of_dDel _ _ _ h1] at h
      exact Bool.noConfusion h
    · rw [h] at h1
      rw [dContains_dDel_self] at h1
      exact Bool.noConfusion h1

theorem lastVal_applyThreadsReorder (cur npv npv2 : PDict) (k : String)
    (hT : k ≠ "Threads") (hH : k ≠ "Hash")
    (h : applyThreadsReorder cur npv = .ok npv2) :
    lastVal npv2 k = lastVal npv k := by
  by_cases hc : dContains npv "Threads" = true
  · cases hg : dGet npv "Threads" with
    | none => simp [applyThreadsReorder, hc, hg] at h
    | some tv =>
      by_cases hch : dContains (dDel npv "Threads") "Hash" = true
      · cases hgh : dGet (dDel npv "Threads") "Hash" with
        | none => simp [applyThreadsReorder, hc, hg, hch, hgh] at h
        | some hv =>
          have hnpv2 : dSet (dSet (dDel (dDel npv "Threads") "Hash") "Threads" tv)
              "Hash" hv = npv2 := by
            simpa [applyThreadsReorder, hc, hg, hch, hgh] using h
          rw [← hnpv2,
            dSet_append_of_not_dContains _ _ _
              (upd_bad_contains_dDel _ _ _ (Or.inl (dContains_dDel_self _ _))),
            dSet_append_of_not_dContains _ _ _ (by
              rw [dContains_append, dContains_dDel_self]
              simp [dContains]),
            lastVal_append_pair_ne _ _ _ _ hH, lastVal_append_pair_ne _ _ _ _ hT,
            lastVal_dDel_ne _ _ _ hH, lastVal_dDel_ne _ _ _ hT]
      · cases hgh : dGet cur "Hash" with
        | none => simp [applyThreadsReorder, hc, hg, hch, hgh] at h
        | some hv =>
          have hnpv2 : dSet (dSet (dDel npv "Threads") "Threads" tv) "Hash" hv
              = npv2 := by
            simpa [applyThreadsReorder, hc, hg, hch, hgh] using h
          rw [← hnpv2,
            dSet_append_of_not_dContains _ _ _ (dContains_dDel_self _ _),
            dSet_append_of_not_dContains _ _ _ (by
              rw [dContains_append]
              simp only [Bool.not_eq_true] at hch
              rw [hch]
              simp [dContains]),
            lastVal_append_pair_ne _ _ _ _ hH, lastVal_append_pair_ne _ _ _ _ hT,
            lastVal_dDel_ne _ _ _ hT]
  · have : npv = npv2 := by simpa [applyThreadsReorder, hc] using h
    rw [this]

theorem updSome_err_of_check (cur b : PDict) (e : String)
    (hb : b.isEmpty = false) (hchk : checkKeysLoop cur b = some e) :
    updateEngineParametersSome cur b = ⟨cur, [], some e⟩ := by
  simp [updateEngineParametersSome, hb, hchk]

theorem updSome_err_of_reorder (cur b : PDict) (e : String)
    (hb : b.isEmpty = false) (hchk : checkKeysLoop cur b = none)
    (hreo : applyThreadsReorder cur (applyStrengthCoupling b) = .error e) :
    updateEngineParametersSome cur b = ⟨cur, [], some e⟩ := by
  simp [updateEngineParametersSome, hb, hchk, hreo]

theorem updSome_eq_of_ok (cur b npv2 : PDict)
    (hb : b.isEmpty = false) (hchk : checkKeysLoop cur b = none)
    (hreo : applyThreadsReorder cur (applyStrengthCoupling b) = .ok npv2) :
    updateEngineParametersSome cur b =
      ⟨(applyOptionsLoop cur npv2).1, (applyOptionsLoop cur npv2).2.1,
       (applyOptionsLoop cur npv2).2.2⟩ := by
  simp [updateEngineParametersSome, hb, hchk, hreo]

/-- Central storage lemma: when a batch `b` is applied without error, any key
other than `Threads`/`Hash` whose last value in the coupled batch is `v` ends
up stored as `v` in `_parameters`. -/
theorem upd_stores_lastVal (cur b : PDict) (k : String) (v : PVal)
    (hkT : k ≠ "Threads") (hkH : k ≠ "Hash")
    (herr : (updateEngineParameters cur (some b)).error = none)
    (hlv : lastVal (applyStrengthCoupling b) k = some v) :
    dGet (updateEngineParameters cur (some b)).params k = some v := by
  have hred : updateEngineParameters cur (some b) = updateEngineParametersSome cur b := rfl
  rw [hred] at herr ⊢
  cases hb : b.isEmpty with
  | true =>
    have : b = [] := List.isEmpty_iff.mp hb
    rw [this] at hlv
    have : applyStrengthCoupling [] = [] := rfl
    rw [this] at hlv
    exact Option.noConfusion hlv
  | false =>
    cases hchk : checkKeysLoop cur b with
    | some e =>
      rw [updSome_err_of_check cur b e hb hchk] at herr
      exact Option.noConfusion herr
    | none =>
      cases hreo : applyThreadsReorder cur (applyStrengthCoupling b) with
      | error e =>
        rw [updSome_err_of_reorder cur b e hb hchk hreo] at herr
        exact Option.noConfusion herr
      | ok npv2 =>
        rw [updSome_eq_of_ok cur b npv2 hb hchk hreo] at herr ⊢
        have hfold := applyOptionsLoop_params_of_ok npv2 cur herr
        rw [hfold, dGet_foldl_dSet,
          lastVal_applyThreadsReorder cur _ npv2 k hkT hkH hreo, hlv]
        rfl

theorem dContains_coupling (b : PDict) (k : String) (h : k ≠ "UCI_LimitStrength") :
    dContains (applyStrengthCoupling b) k = dContains b k := by
  unfold applyStrengthCoupling
  split
  · split
    · exact dContains_dSet_ne b "UCI_LimitStrength" k (.vBool false) h
    · split
      · exact dContains_dSet_ne b "UCI_LimitStrength" k (.vBool true) h
      · rfl
  · rfl

theorem applyThreadsReorder_shape (cur npv npv2 : PDict)
    (hc : dContains npv "Threads" = true)
    (h : applyThreadsReorder cur npv = .ok npv2) :
    ∃ others tv hv, npv2 = others ++ [("Threads", tv), ("Hash", hv)]
      ∧ ∀ p ∈ others, p.1 ≠ "Threads" ∧ p.1 ≠ "Hash" := by
  cases hg : dGet npv "Threads" with
  | none => simp [applyThreadsReorder, hc, hg] at h
  | some tv =>
    by_cases hch : dContains (dDel npv "Threads") "Hash" = true
    · cases hgh : dGet (dDel npv "Threads") "Hash" with
      | none => simp [applyThreadsReorder, hc, hg, hch, hgh] at h
      | some hv =>
        have hnpv2 : dSet (dSet (dDel (dDel npv "Threads") "Hash") "Threads" tv)
            "Hash" hv = npv2 := by
          simpa [applyThreadsReorder, hc, hg, hch, hgh] using h
        refine ⟨dDel (dDel npv "Threads") "Hash", tv, hv, ?_, ?_⟩
        · rw [← hnpv2,
            dSet_append_of_not_dContains _ _ _
              (upd_bad_contains_dDel _ _ _ (Or.inl (dContains_dDel_self _ _))),
            dSet_append_of_not_dContains _ _ _ (by
              rw [dContains_append, dContains_dDel_self]
              simp [dContains])]
          simp
        · intro p hp
          obtain ⟨hp1, hp2⟩ := List.mem_filter.mp hp
          obtain ⟨hp3, hp4⟩ := List.mem_filter.mp hp1
          exact ⟨by simpa using hp4, by simpa using hp2⟩
    · cases hgh : dGet cur "Hash" with
      | none => simp [applyThreadsReorder, hc, hg, hch, hgh] at h
      | some hv =>
        have hnpv2 : dSet (dSet (dDel npv "Threads") "Threads" tv) "Hash" hv
            = npv2 := by
          simpa [applyThreadsReorder, hc, hg, hch, hgh] using h
        refine ⟨dDel npv "Threads", tv, hv, ?_, ?_⟩
        · rw [← hnpv2,
            dSet_append_of_not_dContains _ _ _ (dContains_dDel_self _ _),
            dSet_append_of_not_dContains _ _ _ (by
              rw [dContains_append]
              simp only [Bool.not_eq_true] at hch
              rw [hch]
              simp [dContains])]
          simp
        · intro p hp
          obtain ⟨hp3, hp4⟩ := List.mem_filter.mp hp
          refine ⟨by simpa using hp4, ?_⟩
          simp only [Bool.not_eq_true] at hch
          exact keys_ne_of_not_dContains _ _ hch p hp

theorem getElem?_of_take (l : List (String × PVal)) (n i : Nat) (a : String × PVal)
    (h : (l.take n)[i]? = some a) : l[i]? = some a := by
  by_cases hin : i < n
  · rw [List.getElem?_take_of_lt hin] at h
    exact h
  · rw [List.getElem?_eq_none (by simp [List.length_take]; omega)] at h
    exact Option.noConfusion h

theorem idx_of_append_pair (others : PDict) (tv hv : PVal) (i : Nat)
    (p : String × PVal)
    (hothers : ∀ q ∈ others, q.1 ≠ "Threads" ∧ q.1 ≠ "Hash")
    (h : (others ++ [("Threads", tv), ("Hash", hv)])[i]? = some p) :
    (p.1 = "Threads" → i = others.length)
    ∧ (p.1 = "Hash" → i = others.length + 1) := by
  by_cases hlt : i < others.length
  · rw [List.getElem?_append_left hlt] at h
    have hp : p ∈ others := List.getElem?_mem h
    exact ⟨fun hh => absurd hh (hothers p hp).1,
      fun hh => absurd hh (hothers p hp).2⟩
  · rw [List.getElem?_append_right (Nat.le_of_not_lt hlt)] at h
    rcases hd : i - others.length with _ | _ | m
    · rw [hd] at h
      simp only [List.getElem?_cons_zero, Option.some.injEq] at h
      constructor
      · intro _; omega
      · intro hh
        rw [← h] at hh
        exact absurd hh (by simp)
    · rw [hd] at h
      simp only [List.getElem?_cons_succ, List.getElem?_cons_zero,
        Option.some.injEq] at h
      constructor
      · intro hh
        rw [← h] at hh
        exact absurd hh (by simp)
      · intro _; omega
    · rw [hd] at h
      simp at h

/-- C2: in a batch applied without error by `update_engine_parameters`,
setting `Skill Level` without `UCI_Elo` or an explicit `UCI_LimitStrength`
stores `UCI_LimitStrength = False`; setting `UCI_Elo` without `Skill Level`
or the flag stores `UCI_LimitStrength = True`; an explicit
`UCI_LimitStrength` value in the batch is the one stored. -/
theorem c2_strength_flag_coupling (cur b : PDict)
    (hnd : (b.map Prod.fst).Nodup)
    (herr : (updateEngineParameters cur (some b)).error = none) :
    (dContains b "Skill Level" = true → dContains b "UCI_Elo" = false →
        dContains b "UCI_LimitStrength" = false →
        dGet (updateEngineParameters cur (some b)).params "UCI_LimitStrength"
          = some (.vBool false))
    ∧ (dContains b "UCI_Elo" = true → dContains b "Skill Level" = false →
        dContains b "UCI_LimitStrength" = false →
        dGet (updateEngineParameters cur (some b)).params "UCI_LimitStrength"
          = some (.vBool true))
    ∧ (∀ v : PVal, dGet b "UCI_LimitStrength" = some v →
        dGet (updateEngineParameters cur (some b)).params "UCI_LimitStrength"
          = some v) := by
  refine ⟨?_, ?_, ?_⟩
  · intro h1 h2 h3
    apply upd_stores_lastVal cur b _ _ (by decide) (by decide) herr
    have hcoup : applyStrengthCoupling b
        = dSet b "UCI_LimitStrength" (.vBool false) := by
      unfold applyStrengthCoupling
      rw [h1, h2, h3]
      simp
    rw [hcoup, dSet_append_of_not_dContains _ _ _ h3, lastVal_append_pair]
  · intro h1 h2 h3
    apply upd_stores_lastVal cur b _ _ (by decide) (by decide) herr
    have hcoup : applyStrengthCoupling b
        = dSet b "UCI_LimitStrength" (.vBool true) := by
      unfold applyStrengthCoupling
      rw [h1, h2, h3]
      simp
    rw [hcoup, dSet_append_of_not_dContains _ _ _ h3, lastVal_append_pair]
  · intro v hv
    apply upd_stores_lastVal cur b _ _ (by decide) (by decide) herr
    have h3 : dContains b "UCI_LimitStrength" = true := by
      cases hc : dContains b "UCI_LimitStrength" with
      | true => rfl
      | false =>
        rw [dGet, find?_eq_none_of_not_dContains _ _ hc] at hv
        exact Option.noConfusion hv
    have hcoup : applyStrengthCoupling b = b := by
      unfold applyStrengthCoupling
      rw [h3]
      simp
    rw [hcoup, lastVal_eq_dGet_of_nodup _ _ hnd, hv]

/-- C2 witness: applying `{"Skill Level": 10}` on top of the default
parameters stores `UCI_LimitStrength = False`. -/
theorem c2_strength_flag_coupling_witness :
    dGet (updateEngineParameters DEFAULT_STOCKFISH_PARAMS
        (some [("Skill Level", .vInt 10)])).params "UCI_LimitStrength"
      = some (.vBool false) :=
  (c2_strength_flag_coupling DEFAULT_STOCKFISH_PARAMS
      [("Skill Level", .vInt 10)] (by decide) (by decide)).1
    (by decide) (by decide) (by decide)

/-- C5: in the code the `Hash` registry entry has the constant inclusive
bounds 1..2048 with no dependence on the host pointer width, so validation
rejects 4096 and 2^25 everywhere — whereas the repository's own test suite
(`test_hash_size_platform`) asserts the upper bound is `2^25` on 64-bit
hosts and `2^11` otherwise, matching the claim.  This theorem evaluates the
code model at the claim's failing inputs. -/
theorem c5_hash_bound_is_constant_2048 :
    restrictionFor "Hash" = some (.tInt, some 1, some 2048)
    ∧ validateParamVal "Hash" (.vInt 2048) = .ok ()
    ∧ validateParamVal "Hash" (.vInt 2049)
        = .error "value is over the maximum for Hash"
    ∧ validateParamVal "Hash" (.vInt 4096)
        = .error "value is over the maximum for Hash"
    ∧ validateParamVal "Hash" (.vInt 33554432)
        = .error "value is over the maximum for Hash"
    ∧ (∀ p ∈ PARAM_RESTRICTIONS, p.1 ≠ "Hash" →
        validateParamVal p.1 (.vInt 2048) = validateParamVal p.1 (.vInt 2048)) := by
  refine ⟨rfl, rfl, rfl, rfl, rfl, fun p _ _ => rfl⟩

/-- C8: whenever a batch containing `Threads` is applied, every `setoption`
command for `Threads` is sent strictly before every `setoption` command for
`Hash`, regardless of the order of the keys in the caller's batch (and also
when `Hash` is re-sent with its current value). -/
theorem c8_threads_setoption_precedes_hash (cur b : PDict)
    (hT : dContains b "Threads" = true) :
    ∀ (i j : Nat) (p q : String × PVal),
      (updateEngineParameters cur (some b)).commands[i]? = some p →
      p.1 = "Threads" →
      (updateEngineParameters cur (some b)).commands[j]? = some q →
      q.1 = "Hash" →
      i < j := by
  intro i j p q hi hpT hj hqH
  have hred : updateEngineParameters cur (some b)
      = updateEngineParametersSome cur b := rfl
  rw [hred] at hi hj
  have hb : b.isEmpty = false := by
    cases hbe : b.isEmpty with
    | false => rfl
    | true =>
      rw [List.isEmpty_iff.mp hbe] at hT
      exact Bool.noConfusion hT
  cases hchk : checkKeysLoop cur b with
  | some e =>
    rw [updSome_err_of_check cur b e hb hchk] at hi
    exact absurd hi (by simp)
  | none =>
    cases hreo : applyThreadsReorder cur (applyStrengthCoupling b) with
    | error e =>
      rw [updSome_err_of_reorder cur b e hb hchk hreo] at hi
      exact absurd hi (by simp)
    | ok npv2 =>
      rw [updSome_eq_of_ok cur b npv2 hb hchk hreo] at hi hj
      obtain ⟨n, hn⟩ := applyOptionsLoop_cmds_take npv2 cur
      rw [hn] at hi hj
      have hcT : dContains (applyStrengthCoupling b) "Threads" = true := by
        rw [dContains_coupling b "Threads" (by decide)]
        exact hT
      obtain ⟨others, tv, hv, hshape, hothers⟩ :=
        applyThreadsReorder_shape cur _ npv2 hcT hreo
      have hi2 : npv2[i]? = some p := getElem?_of_take npv2 n i p hi
      have hj2 : npv2[j]? = some q := getElem?_of_take npv2 n j q hj
      rw [hshape] at hi2 hj2
      have hiEq := (idx_of_append_pair others tv hv i p hothers hi2).1 hpT
      have hjEq := (idx_of_append_pair others tv hv j q hothers hj2).2 hqH
      omega

/-- C8 witness: the batch `{"Hash": 32, "Threads": 2}` (caller lists `Hash`
first) emits the `Threads` command at index 0 and the `Hash` command at
index 1. -/
theorem c8_threads_setoption_precedes_hash_witness :
    (0 : Nat) < 1
    ∧ (updateEngineParameters DEFAULT_STOCKFISH_PARAMS
        (some [("Hash", .vInt 32), ("Threads", .vInt 2)])).commands
      = [("Threads", .vInt 2), ("Hash", .vInt 32)] :=
  ⟨c8_threads_setoption_precedes_hash DEFAULT_STOCKFISH_PARAMS
      [("Hash", .vInt 32), ("Threads", .vInt 2)] (by decide)
      0 1 ("Threads", .vInt 2) ("Hash", .vInt 32)
      (by decide) rfl (by decide) rfl,
   by decide⟩

/-- C10: `set_depth` and `set_num_nodes` raise `TypeError` — leaving the
stored value unchanged — exactly when the argument is a bool, not an int, or
an int below 1; otherwise they store the given positive int, so the stored
depth and node budget are always non-boolean positive integers. -/
theorem c10_set_depth_num_nodes_validation (cur : Int) (v : PVal) :
    (badDepthArg v = true →
        setDepth cur v
            = (cur, some "TypeError: depth must be an integer higher than 0")
        ∧ setNumNodes cur v
            = (cur, some "TypeError: num_nodes must be an integer higher than 0"))
    ∧ (badDepthArg v = false →
        ∃ n : Int, v = .vInt n ∧ 1 ≤ n
          ∧ setDepth cur v = (n, none) ∧ setNumNodes cur v = (n, none))
    ∧ (1 ≤ cur → 1 ≤ (setDepth cur v).1 ∧ 1 ≤ (setNumNodes cur v).1) := by
  refine ⟨?_, ?_, ?_⟩
  · intro hbad
    cases v with
    | vStr s =>
      exact ⟨by simp [setDepth, setDepthGuardFails, pyIsInstanceInt],
        by simp [setNumNodes, setNumNodesGuardFails, pyIsInstanceInt]⟩
    | vBool bb =>
      exact ⟨by simp [setDepth, setDepthGuardFails, pyIsInstanceBool],
        by simp [setNumNodes, setNumNodesGuardFails, pyIsInstanceBool]⟩
    | vInt n =>
      have hn : n < 1 := by simpa [badDepthArg] using hbad
      exact ⟨by simp [setDepth, setDepthGuardFails, pyIntVal, hn],
        by simp [setNumNodes, setNumNodesGuardFails, pyIntVal, hn]⟩
  · intro hgood
    cases v with
    | vStr s => simp [badDepthArg] at hgood
    | vBool bb => simp [badDepthArg] at hgood
    | vInt n =>
      have hn : 1 ≤ n := by
        have := by simpa [badDepthArg] using hgood
        omega
      have hd : setDepthGuardFails (.vInt n) = false := by
        simp [setDepthGuardFails, pyIsInstanceInt, pyIsInstanceBool, pyIntVal]
        omega
      have hnn : setNumNodesGuardFails (.vInt n) = false := by
        simp [setNumNodesGuardFails, pyIsInstanceInt, pyIsInstanceBool, pyIntVal]
        omega
      exact ⟨n, rfl, hn, by simp [setDepth, hd, pyIntVal],
        by simp [setNumNodes, hnn, pyIntVal]⟩
  · intro hcur
    constructor
    · unfold setDepth
      split
      · exact hcur
      · rename_i hguard
        cases v with
        | vStr s => simp [setDepthGuardFails, pyIsInstanceInt] at hguard
        | vBool bb => simp [setDepthGuardFails, pyIsInstanceBool] at hguard
        | vInt n =>
          simp only [setDepthGuardFails, pyIsInstanceInt, pyIsInstanceBool,
            pyIntVal, Bool.not_true, Bool.false_or, Bool.or_false,
            decide_eq_true_eq] at hguard
          simp only [pyIntVal]
          omega
    · unfold setNumNodes
      split
      · exact hcur
      · rename_i hguard
        cases v with
        | vStr s => simp [setNumNodesGuardFails, pyIsInstanceInt] at hguard
        | vBool bb => simp [setNumNodesGuardFails, pyIsInstanceBool] at hguard
        | vInt n =>
          simp only [setNumNodesGuardFails, pyIsInstanceInt, pyIsInstanceBool,
            pyIntVal, Bool.not_true, Bool.false_or, Bool.or_false,
            decide_eq_true_eq] at hguard
          simp only [pyIntVal]
          omega

theorem checkRankLoop_head_not_digit (c2 : Char) (cs2 : List Char) (acc m : Nat)
    (h : checkRankLoop (c2 :: cs2) true acc = some m) : isDigit18 c2 = false := by
  by_cases hd : isDigit18 c2 = true
  · unfold checkRankLoop at h
    rw [hd] at h
    simp at h
  · simpa using hd

theorem checkRankLoop_sound : ∀ (r : List Char) (prev : Bool) (acc m : Nat),
    checkRankLoop r prev acc = some m →
    acc ≤ m ∧ rankSquares r = some (m - acc) ∧ noAdjacentDigits r = true := by
  intro r
  induction r with
  | nil =>
    intro prev acc m h
    unfold checkRankLoop at h
    have hm : acc = m := Option.some.inj h
    subst hm
    exact ⟨le_refl _, by simp [rankSquares], rfl⟩
  | cons c cs ih =>
    intro prev acc m h
    unfold checkRankLoop at h
    by_cases hd : isDigit18 c = true
    · rw [if_pos hd] at h
      cases prev with
      | true => simp at h
      | false =>
        rw [if_neg (by simp)] at h
        obtain ⟨h1, h2, h3⟩ := ih true (acc + (c.toNat - '0'.toNat)) m h
        refine ⟨by omega, ?_, ?_⟩
        · unfold rankSquares
          rw [if_pos hd, h2]
          simp only [Option.map_some']
          congr 1
          omega
        · cases cs with
          | nil => rfl
          | cons c2 cs2 =>
            have hnd := checkRankLoop_head_not_digit c2 cs2 _ _ h
            unfold noAdjacentDigits
            rw [hnd]
            simp [h3]
    · rw [if_neg hd] at h
      by_cases hp : PIECE_CHARS.contains c = true
      · rw [if_pos hp] at h
        obtain ⟨h1, h2, h3⟩ := ih false (acc + 1) m h
        have hdf : isDigit18 c = false := by simpa using hd
        refine ⟨by omega, ?_, ?_⟩
        · unfold rankSquares
          rw [if_neg hd, if_pos hp, h2]
          simp only [Option.map_some']
          congr 1
          omega
        · cases cs with
          | nil => rfl
          | cons c2 cs2 =>
            unfold noAdjacentDigits
            rw [hdf]
            simp [h3]
      · rw [if_neg hp] at h
        exact Option.noConfusion h

theorem checkRank_sound (r : List Char) (h : checkRank r = true) :
    rankSquares r = some 8 ∧ noAdjacentDigits r = true := by
  unfold checkRank at h
  cases hl : checkRankLoop r false 0 with
  | none => rw [hl] at h; exact Bool.noConfusion h
  | some n =>
    rw [hl] at h
    have hn : n = 8 := by simpa using h
    rw [hn] at hl
    obtain ⟨h1, h2, h3⟩ := checkRankLoop_sound r false 0 8 hl
    exact ⟨by simpa using h2, h3⟩

theorem countChar_pos_of_contains (s : List Char) (c : Char)
    (h : s.contains c = true) : 1 ≤ countChar s c := by
  have hm : c ∈ s := by simpa using h
  have hmem : c ∈ s.filter (fun x => x = c) := List.mem_filter.mpr ⟨hm, by simp⟩
  have hne : s.filter (fun x => x = c) ≠ [] := List.ne_nil_of_mem hmem
  have hlen := List.length_pos.mpr hne
  unfold countChar
  omega

/-- C6 (amended): whenever `_is_fen_syntax_valid` returns `True`, the string
has exactly six whitespace-separated fields, the placement field has exactly
eight ranks, each rank consists solely of whitelisted piece letters and
digits 1-8 with no two adjacent digits and sums to exactly eight squares,
the placement field contains at least one white king and at least one black
king (NOT exactly one each — see the counterexample: only presence is
checked), and the half-move counter is a digit string strictly less than
twice the full-move counter. -/
theorem c6_fen_syntax_checker_only_if (fen : String)
    (h : isFenSyntaxValid fen = true) :
    fenFieldCount fen = 6
    ∧ (fenRanks fen).length = 8
    ∧ (∀ r ∈ fenRanks fen, rankSquares r = some 8 ∧ noAdjacentDigits r = true)
    ∧ (∃ f0 rest, pySplitWs fen.toList = f0 :: rest
        ∧ 1 ≤ countChar f0 'K' ∧ 1 ≤ countChar f0 'k')
    ∧ (∃ f0 f1 f2 f3 f4 f5, pySplitWs fen.toList = [f0, f1, f2, f3, f4, f5]
        ∧ pyIsDigitStr f4 = true ∧ pyIsDigitStr f5 = true
        ∧ digitsToNat f4 < digitsToNat f5 * 2) := by
  unfold isFenSyntaxValid at h
  split at h
  · exact Bool.noConfusion h
  · split at h
    case h_2 => exact Bool.noConfusion h
    case h_1 f0 f1 f2 f3 f4 f5 heq =>
      split at h
      · exact Bool.noConfusion h
      rename_i h8
      split at h
      · exact Bool.noConfusion h
      rename_i hKk
      split at h
      · exact Bool.noConfusion h
      rename_i hdig
      split at h
      · exact Bool.noConfusion h
      rename_i hcnt
      have h8b : (splitOnSep '/' f0).length = 8 := by
        simpa using h8
      have hKkb : f0.contains 'K' = true ∧ f0.contains 'k' = true := by
        simpa using hKk
      have hdigb : pyIsDigitStr f4 = true ∧ pyIsDigitStr f5 = true := by
        simpa using hdig
      refine ⟨?_, ?_, ?_, ?_, ?_⟩
      · show (pySplitWs fen.toList).length = 6
        rw [heq]
        rfl
      · unfold fenRanks
        rw [heq]
        exact h8b
      · intro r hr
        unfold fenRanks at hr
        rw [heq] at hr
        exact checkRank_sound r (by
          rw [List.all_eq_true] at h
          simpa using h r hr)
      · exact ⟨f0, [f1, f2, f3, f4, f5], heq,
          countChar_pos_of_contains f0 'K' hKkb.1,
          countChar_pos_of_contains f0 'k' hKkb.2⟩
      · exact ⟨f0, f1, f2, f3, f4, f5, heq, hdigb.1, hdigb.2, by omega⟩

/-- C6 counterexample: `"KKk5/8/8/8/8/8/8/8 w - - 0 1"` has two white kings
in its placement field, yet the syntactic checker accepts it — the code only
checks that at least one `K` and one `k` are present, not exactly one. -/
theorem c6_fen_syntax_checker_counterexample :
    isFenSyntaxValid "KKk5/8/8/8/8/8/8/8 w - - 0 1" = true
    ∧ countChar ("KKk5/8/8/8/8/8/8/8".toList) 'K' = 2 := by
  constructor
  · decide
  · decide

/-- C6 witness: the amended theorem applied to the syntactically valid
initial-position FEN. -/
theorem c6_fen_syntax_checker_only_if_witness :
    fenFieldCount "rnbqkbnr/pppppppp/8/8/8/8/PPPPPPPP/RNBQKBNR w KQkq - 0 1" = 6
    ∧ (fenRanks "rnbqkbnr/pppppppp/8/8/8/8/PPPPPPPP/RNBQKBNR w KQkq - 0 1").length = 8 :=
  ⟨(c6_fen_syntax_checker_only_if _ (by decide)).1,
   (c6_fen_syntax_checker_only_if _ (by decide)).2.1⟩

theorem makeMovesLoop_prefix (legal : MoveOracle) :
    ∀ (pre : List String) (fen fen1 bad : String) (rest : List String),
      chainFen legal fen pre = some fen1 → legal fen1 bad = none →
      makeMovesLoop legal fen (pre ++ bad :: rest) = ⟨fen1, some bad⟩ := by
  intro pre
  induction pre with
  | nil =>
    intro fen fen1 bad rest hc hb
    have hf : fen = fen1 := Option.some.inj hc
    subst hf
    simp only [List.nil_append]
    unfold makeMovesLoop
    rw [hb]
  | cons m pre2 ih =>
    intro fen fen1 bad rest hc hb
    unfold chainFen at hc
    cases hm : legal fen m with
    | none => rw [hm] at hc; exact Option.noConfusion hc
    | some fen2 =>
      rw [hm] at hc
      simp only [List.cons_append]
      unfold makeMovesLoop
      rw [hm]
      exact ih fen2 fen1 bad rest hc hb

theorem makeMovesLoop_all (legal : MoveOracle) :
    ∀ (ms : List String) (fen fen1 : String),
      chainFen legal fen ms = some fen1 →
      makeMovesLoop legal fen ms = ⟨fen1, none⟩ := by
  intro ms
  induction ms with
  | nil =>
    intro fen fen1 hc
    have hf : fen = fen1 := Option.some.inj hc
    subst hf
    rfl
  | cons m ms2 ih =>
    intro fen fen1 hc
    unfold chainFen at hc
    cases hm : legal fen m with
    | none => rw [hm] at hc; exact Option.noConfusion hc
    | some fen2 =>
      rw [hm] at hc
      unfold makeMovesLoop
      rw [hm]
      exact ih fen2 fen1 hc

/-- C1 (amended): replaying `None` or an empty list leaves the FEN
unchanged, and a batch whose first engine-rejected move is `bad` raises
`ValueError("Cannot make move: bad")` — but only after every legal move
before `bad` has already been applied: the session FEN ends at the result
of the legal prefix, not at its pre-call value (no all-or-nothing). -/
theorem c1_make_moves_applies_legal_prefix (legal : MoveOracle) (fen : String) :
    makeMovesFromCurrentPosition legal fen none = ⟨fen, none⟩
    ∧ makeMovesFromCurrentPosition legal fen (some []) = ⟨fen, none⟩
    ∧ (∀ (pre : List String) (bad : String) (rest : List String) (fen1 : String),
        chainFen legal fen pre = some fen1 → legal fen1 bad = none →
        makeMovesFromCurrentPosition legal fen (some (pre ++ bad :: rest))
          = ⟨fen1, some bad⟩)
    ∧ (∀ (ms : List String) (fen1 : String), chainFen legal fen ms = some fen1 →
        makeMovesFromCurrentPosition legal fen (some ms) = ⟨fen1, none⟩) := by
  refine ⟨rfl, rfl, ?_, ?_⟩
  · intro pre bad rest fen1 hc hb
    cases pre with
    | nil =>
      have hf : fen = fen1 := Option.some.inj hc
      subst hf
      show makeMovesLoop legal fen (bad :: rest) = ⟨fen, some bad⟩
      unfold makeMovesLoop
      rw [hb]
    | cons m pre2 =>
      show makeMovesLoop legal fen (m :: (pre2 ++ bad :: rest)) = ⟨fen1, some bad⟩
      exact makeMovesLoop_prefix legal (m :: pre2) fen fen1 bad rest hc hb
  · intro ms fen1 hc
    cases ms with
    | nil =>
      have hf : fen = fen1 := Option.some.inj hc
      subst hf
      rfl
    | cons m ms2 =>
      show makeMovesLoop legal fen (m :: ms2) = ⟨fen1, none⟩
      exact makeMovesLoop_all legal (m :: ms2) fen fen1 hc

/-- C1 counterexample: a batch whose first move the engine accepts and whose
second it rejects raises naming the second move, yet the session FEN has
already advanced to `"F1" ≠ "F0"` — the legal prefix was applied, so the
batch is not all-or-nothing as the claim states. -/
theorem c1_make_moves_counterexample :
    makeMovesFromCurrentPosition c1Oracle "F0" (some ["m1", "m2"])
      = ⟨"F1", some "m2"⟩
    ∧ ("F1" : String) ≠ "F0" := by
  constructor
  · decide
  · decide

/-- C1 witness: the amended theorem applied to the concrete oracle, for an
all-legal batch and for a batch failing at its second move. -/
theorem c1_make_moves_applies_legal_prefix_witness :
    makeMovesFromCurrentPosition c1Oracle "F0" (some ["m1"]) = ⟨"F1", none⟩
    ∧ makeMovesFromCurrentPosition c1Oracle "F0" (some (["m1"] ++ "m2" :: []))
      = ⟨"F1", some "m2"⟩ :=
  ⟨( c1_make_moves_applies_legal_prefix c1Oracle "F0").2.2.2 ["m1"] "F1" (by decide),
   ( c1_make_moves_applies_legal_prefix c1Oracle "F0").2.2.1 ["m1"] "m2" [] "F1"
     (by decide) (by decide)⟩

/-- C4: `is_fen_valid` never propagates an exception; whenever the semantic
check runs (the syntactic gate passed), the disposable sub-session is
created and torn down on every exit path, a crash of its engine process is
converted to the return value `False`, and a completed search returns
whether a best move exists. -/
theorem c4_is_fen_valid_crash_handling (fen : String) (outcome : SemanticOutcome) :
    (isFenValid fen outcome).raised = false
    ∧ (isFenSyntaxValid fen = true →
        (isFenValid fen outcome).sessionCreated = true
        ∧ (isFenValid fen outcome).sessionTornDown = true
        ∧ (outcome = .crashed → (isFenValid fen outcome).returned = false)
        ∧ (∀ m, outcome = .bestMove m →
            (isFenValid fen outcome).returned = m.isSome)) := by
  cases hs : isFenSyntaxValid fen with
  | false =>
    constructor
    · simp [isFenValid, hs]
    · intro hcontra
      exact absurd hcontra (by simp [hs])
  | true =>
    cases outcome with
    | crashed =>
      refine ⟨by simp [isFenValid, hs], fun _ => ⟨by simp [isFenValid, hs],
        by simp [isFenValid, hs], fun _ => by simp [isFenValid, hs], ?_⟩⟩
      intro m hm
      exact SemanticOutcome.noConfusion hm
    | bestMove m0 =>
      refine ⟨by simp [isFenValid, hs], fun _ => ⟨by simp [isFenValid, hs],
        by simp [isFenValid, hs], fun hm => SemanticOutcome.noConfusion hm, ?_⟩⟩
      intro m hm
      have : m0 = m := by
        have := SemanticOutcome.bestMove.inj hm
        exact this
      subst this
      simp [isFenValid, hs]

/-- C4 witness: a crash during the semantic check of a syntactically valid
FEN returns `False` with the sub-session torn down. -/
theorem c4_is_fen_valid_crash_handling_witness :
    (isFenValid "rnbqkbnr/pppppppp/8/8/8/8/PPPPPPPP/RNBQKBNR w KQkq - 0 1"
        SemanticOutcome.crashed).returned = false
    ∧ (isFenValid "rnbqkbnr/pppppppp/8/8/8/8/PPPPPPPP/RNBQKBNR w KQkq - 0 1"
        SemanticOutcome.crashed).sessionTornDown = true :=
  ⟨((c4_is_fen_valid_crash_handling _ .crashed).2 (by decide)).2.2.1 rfl,
   ((c4_is_fen_valid_crash_handling _ .crashed).2 (by decide)).2.1⟩

theorem startsWithSeq_append_self : ∀ (p t : List Char),
    startsWithSeq p (p ++ t) = true := by
  intro p t
  induction p with
  | nil => rfl
  | cons c cs ih => simp [startsWithSeq, ih]

theorem containsSub_of_startsWith (pat s : List Char)
    (h : startsWithSeq pat s = true) : containsSub pat s = true := by
  cases s with
  | nil =>
    cases pat with
    | nil => rfl
    | cons p ps => exact Bool.noConfusion h
  | cons c cs => simp [containsSub, h]

theorem containsSub_append_pre (pat : List Char) :
    ∀ (pre s : List Char), containsSub pat s = true →
      containsSub pat (pre ++ s) = true := by
  intro pre
  induction pre with
  | nil => intro s h; exact h
  | cons c cs ih =>
    intro s h
    simp only [List.cons_append]
    unfold containsSub
    rw [ih s h]
    simp

theorem splitOnSep_not_mem (sep : Char) : ∀ (s : List Char), sep ∉ s →
    splitOnSep sep s = [s] := by
  intro s
  induction s with
  | nil => intro _; rfl
  | cons c cs ih =>
    intro h
    have hc : ¬ c = sep := by
      intro hh
      exact h (by rw [← hh]; exact List.mem_cons_self c cs)
    have hcs : sep ∉ cs := fun hh => h (List.mem_cons_of_mem _ hh)
    unfold splitOnSep
    rw [if_neg hc, ih hcs]

theorem splitOnSep_append (sep : Char) : ∀ (mv rest : List Char), sep ∉ mv →
    splitOnSep sep (mv ++ sep :: rest) = mv :: splitOnSep sep rest := by
  intro mv
  induction mv with
  | nil =>
    intro rest _
    simp [splitOnSep]
  | cons c cs ih =>
    intro rest h
    have hc : ¬ c = sep := by
      intro hh
      exact h (by rw [← hh]; exact List.mem_cons_self c cs)
    have hcs : sep ∉ cs := fun hh => h (List.mem_cons_of_mem _ hh)
    simp only [List.cons_append, splitOnSep, hc, if_false, List.append_eq]
    rw [ih rest hcs]

theorem append_cons_ne_empty (l : List Char) (c : Char) (t : List Char) :
    (l ++ c :: t).isEmpty = false := by
  cases l <;> rfl

theorem any_key_eq_false_of_not_mem (acc : List (List Char × Int))
    (mv : List Char) (h : mv ∉ acc.map Prod.fst) :
    acc.any (fun q => q.1 = mv) = false := by
  rw [List.any_eq_false]
  intro q hq
  simp only [decide_eq_true_eq]
  intro hqmv
  exact h (by rw [← hqmv]; exact List.mem_map_of_mem _ hq)

theorem perftLoop_run (cnt : List Char) (ntotal : Int) (trailing : List Char)
    (hcnt1 : ':' ∉ cnt) (hcnt2 : pyInt cnt = some ntotal) :
    ∀ (mvs : List (List Char × List Char × Int)) (acc : List (List Char × Int)),
      (∀ p ∈ mvs, ':' ∉ p.1
          ∧ containsSub ("searched".toList) (p.1 ++ ':' :: p.2.1) = false
          ∧ ':' ∉ p.2.1 ∧ pyInt p.2.1 = some p.2.2) →
      ((acc.map Prod.fst) ++ (mvs.map (fun p => p.1))).Nodup →
      perftLoop (mvs.map mkMoveLine ++ ["Nodes searched:".toList ++ cnt, trailing]) acc
        = .ok (ntotal, acc ++ mvs.map (fun p => (p.1, p.2.2)), [trailing]) := by
  intro mvs
  induction mvs with
  | nil =>
    intro acc _ _
    have hassoc : "Nodes searched:".toList ++ cnt
        = "Nodes searched".toList ++ ':' :: cnt := rfl
    have hne : ("Nodes searched:".toList ++ cnt).isEmpty = false := by
      rw [hassoc]
      exact append_cons_ne_empty _ _ _
    have hctn : containsSub ("searched".toList) ("Nodes searched:".toList ++ cnt)
        = true := by
      have h2 : "Nodes searched:".toList ++ cnt
          = "Nodes ".toList ++ ("searched".toList ++ ':' :: cnt) := rfl
      rw [h2]
      exact containsSub_append_pre _ _ _
        (containsSub_of_startsWith _ _ (startsWithSeq_append_self _ _))
    have hsplit : splitOnSep ':' ("Nodes searched:".toList ++ cnt)
        = ["Nodes searched".toList, cnt] := by
      rw [hassoc, splitOnSep_append ':' _ _ (by decide), splitOnSep_not_mem ':' cnt hcnt1]
    simp only [List.map_nil, List.nil_append, List.append_nil]
    unfold perftLoop
    rw [hne, hctn, hsplit]
    simp [hcnt2]
  | cons p rest ih =>
    intro acc hmv hnd
    obtain ⟨hp1, hp2, hp3, hp4⟩ := hmv p (List.mem_cons_self p rest)
    have hmv2 : ∀ q ∈ rest, ':' ∉ q.1
        ∧ containsSub ("searched".toList) (q.1 ++ ':' :: q.2.1) = false
        ∧ ':' ∉ q.2.1 ∧ pyInt q.2.1 = some q.2.2 :=
      fun q hq => hmv q (List.mem_cons_of_mem _ hq)
    have hnotmem : p.1 ∉ acc.map Prod.fst := by
      rw [List.map_cons, List.nodup_append] at hnd
      intro hmem
      exact hnd.2.2 hmem (List.mem_cons_self _ _)
    have hnd2 : (((acc ++ [(p.1, p.2.2)]).map Prod.fst)
        ++ (rest.map (fun q => q.1))).Nodup := by
      rw [List.map_append]
      have he : (acc.map Prod.fst ++ [(p.1, p.2.2)].map Prod.fst)
          ++ rest.map (fun q => q.1)
          = acc.map Prod.fst ++ (p.1 :: rest.map (fun q => q.1)) := by
        rw [List.append_assoc]
        rfl
      rw [he]
      rw [List.map_cons] at hnd
      exact hnd
    have hne : (mkMoveLine p).isEmpty = false := append_cons_ne_empty _ _ _
    have hsplit : splitOnSep ':' (mkMoveLine p) = [p.1, p.2.1] := by
      unfold mkMoveLine
      rw [splitOnSep_append ':' _ _ hp1, splitOnSep_not_mem ':' _ hp3]
    have hany : acc.any (fun q => q.1 = p.1) = false :=
      any_key_eq_false_of_not_mem acc p.1 hnotmem
    simp only [List.map_cons, List.cons_append]
    unfold perftLoop
    rw [show mkMoveLine p = p.1 ++ ':' :: p.2.1 from rfl] at hne hsplit ⊢
    rw [hne, hp2, hsplit]
    simp only [Bool.false_eq_true, if_false]
    rw [hany, hp4]
    simp only [Bool.false_eq_true, if_false]
    rw [ih (acc ++ [(p.1, p.2.2)]) hmv2 hnd2]
    simp

theorem restoreMultiPV_ok (st st3 : TopState) (old : PVal)
    (h : restoreMultiPV st old = .ok st3) :
    dGet st3.params "MultiPV" = some old ∧ st3.numNodes = st.numNodes := by
  cases hg : dGet st.params "MultiPV" with
  | none => simp [restoreMultiPV, hg] at h
  | some cur =>
    by_cases he : old ≠ cur
    · cases hv : validateParamVal "MultiPV" old with
      | error e => simp [restoreMultiPV, hg, he, hv] at h
      | ok u =>
        have hst : { st with params := dSet st.params "MultiPV" old } = st3 := by
          simpa [restoreMultiPV, hg, he, hv] using h
        subst hst
        exact ⟨dGet_dSet_same _ _ _, rfl⟩
    · have hst : st = st3 := by
        simpa [restoreMultiPV, hg, he] using h
      subst hst
      push_neg at he
      exact ⟨by rw [hg, he], rfl⟩

theorem restoreNumNodes_numNodes (oldN : Int) (st3 : TopState) :
    (restoreNumNodes oldN st3).numNodes = oldN := by
  unfold restoreNumNodes
  by_cases hq : oldN ≠ st3.numNodes
  · rw [if_pos hq]
  · rw [if_neg hq]
    push_neg at hq
    exact hq.symm

theorem restoreNumNodes_params (oldN : Int) (st3 : TopState) :
    (restoreNumNodes oldN st3).params = st3.params := by
  unfold restoreNumNodes
  by_cases hq : oldN ≠ st3.numNodes
  · rw [if_pos hq]
  · rw [if_neg hq]

/-- C3: whenever `get_top_moves` returns, the configured `MultiPV`
parameter and the configured node budget equal their pre-call values — for
every positive `num_top_moves`, every node-budget override (0 meaning
none), both verbosity modes, and every engine output, including outputs
with fewer lines than requested and the no-legal-moves
`bestmove (none)` output. -/
theorem c3_get_top_moves_restores_state (st : TopState) (lines : List String)
    (n : Int) (verbose : Bool) (numNodesArg : Int) (stOut : TopState)
    (moves : List MoveEval)
    (h : getTopMoves st lines n verbose numNodesArg = .ok (stOut, moves)) :
    dGet stOut.params "MultiPV" = dGet st.params "MultiPV"
    ∧ stOut.numNodes = st.numNodes := by
  by_cases hn : n ≤ 0
  · simp [getTopMoves, hn] at h
  cases hg : dGet st.params "MultiPV" with
  | none => simp [getTopMoves, hn, hg] at h
  | some old =>
    cases hset : setMultiPVIfNeeded st n old with
    | error e => simp [getTopMoves, hn, hg, hset] at h
    | ok st1 =>
      set st2 := (if numNodesArg = 0 then st1 else { st1 with numNodes := numNodesArg })
        with hst2
      cases hloop : topMovesLoop st2 numNodesArg (perspectiveSign st2) verbose
          ((lines.map pySplitSpace).reverse) [] with
      | error e => simp [getTopMoves, hn, hg, hset, ← hst2, hloop] at h
      | ok top =>
        cases hrest : restoreMultiPV st2 old with
        | error e => simp [getTopMoves, hn, hg, hset, ← hst2, hloop, hrest] at h
        | ok st3 =>
          have h2 : restoreNumNodes st.numNodes st3 = stOut ∧ top = moves := by
            simpa [getTopMoves, hn, hg, hset, ← hst2, hloop, hrest] using h
          obtain ⟨hm, _⟩ := restoreMultiPV_ok st2 st3 old hrest
          rw [← h2.1]
          constructor
          · rw [restoreNumNodes_params, hm]
          · rw [restoreNumNodes_numNodes]

/-- C3 witness: the theorem applied to a `bestmove (none)` engine output
(no legal moves) with `MultiPV` overridden from 1 to 2: `get_top_moves`
returns with both settings restored. -/
theorem c3_get_top_moves_restores_state_witness :
    dGet c3State.params "MultiPV" = dGet c3State.params "MultiPV"
    ∧ c3State.numNodes = c3State.numNodes :=
  c3_get_top_moves_restores_state c3State ["bestmove (none)"] 2 false 0
    c3State [] (by rfl)

/-- C9 (amended): `get_perft` performs no cross-check between the per-move
counts and the engine-reported total: on a well-formed engine response it
returns the summary-line total and the per-move counts verbatim (so a
mismatched total is accepted silently — see the counterexample), and the
per-move sum equals the returned total exactly when the engine output is
itself consistent. -/
theorem c9_perft_no_crosscheck
    (mvs : List (List Char × List Char × Int)) (cnt trailing : List Char)
    (ntotal : Int) (d : Int) (hd : 1 ≤ d)
    (hmv : ∀ p ∈ mvs, ':' ∉ p.1
        ∧ containsSub ("searched".toList) (p.1 ++ ':' :: p.2.1) = false
        ∧ ':' ∉ p.2.1 ∧ pyInt p.2.1 = some p.2.2)
    (hnd : (mvs.map (fun p => p.1)).Nodup)
    (hcnt1 : ':' ∉ cnt) (hcnt2 : pyInt cnt = some ntotal) :
    getPerft (.vInt d)
        (mvs.map mkMoveLine ++ ["Nodes searched:".toList ++ cnt, trailing])
      = .ok (ntotal, mvs.map (fun p => (p.1, p.2.2)))
    ∧ (perftMoveSum (mvs.map (fun p => (p.1, p.2.2))) = ntotal
        ↔ (mvs.map (fun p => p.2.2)).sum = ntotal) := by
  constructor
  · have hguard : setDepthGuardFails (.vInt d) = false := by
      simp [setDepthGuardFails, pyIsInstanceInt, pyIsInstanceBool, pyIntVal]
      omega
    unfold getPerft
    rw [hguard]
    simp only [Bool.false_eq_true, if_false]
    rw [perftLoop_run cnt ntotal trailing hcnt1 hcnt2 mvs [] hmv (by simpa using hnd)]
    rfl
  · unfold perftMoveSum
    rw [List.map_map]
    rfl

/-- C9 counterexample: an engine response whose single move line counts 1
leaf but whose summary reports 5 is parsed successfully — the mismatch is
returned as-is (total 5, per-move sum 1), not surfaced as a parser
invariant violation. -/
theorem c9_perft_counterexample :
    getPerft (.vInt 1) ["a2a3: 1".toList, "Nodes searched: 5".toList, []]
      = .ok (5, [("a2a3".toList, 1)])
    ∧ perftMoveSum [("a2a3".toList, 1)] = 1
    ∧ (5 : Int) ≠ 1 := by
  refine ⟨by rfl, by decide, by decide⟩

/-- C9 witness: the amended theorem applied to a consistent two-move
response (`a2a3: 1`, `b2b3: 1`, total 2). -/
theorem c9_perft_no_crosscheck_witness :
    getPerft (.vInt 1)
        ([("a2a3".toList, (" 1".toList, (1 : Int))),
          ("b2b3".toList, (" 1".toList, (1 : Int)))].map mkMoveLine
          ++ ["Nodes searched:".toList ++ " 2".toList, []])
      = .ok (2, [("a2a3".toList, 1), ("b2b3".toList, 1)]) :=
  (c9_perft_no_crosscheck
      [("a2a3".toList, (" 1".toList, (1 : Int))),
       ("b2b3".toList, (" 1".toList, (1 : Int)))]
      (" 2".toList) [] 2 1 (by decide) (by decide) (by decide)
      (by decide) (by decide)).1

theorem findReleaseLoop_none_spec : ∀ (l : List (String × Nat)) (date : Nat)
    (best : Option (String × Nat)),
    findReleaseLoop l date best = none →
    best = none ∧ ∀ p ∈ l, ¬ p.2 ≤ date := by
  intro l
  induction l with
  | nil =>
    intro date best h
    refine ⟨h, ?_⟩
    intro p hp
    simp at hp
  | cons q rest ih =>
    intro date best h
    obtain ⟨k1, v1⟩ := q
    by_cases hq : v1 ≤ date
    · cases best with
      | none =>
        have h2 : findReleaseLoop rest date (some (k1, v1)) = none := by
          simpa [findReleaseLoop, hq] using h
        obtain ⟨hb, _⟩ := ih date (some (k1, v1)) h2
        exact Option.noConfusion hb
      | some b =>
        obtain ⟨kb, vb⟩ := b
        by_cases hgt : v1 > vb
        · have h2 : findReleaseLoop rest date (some (k1, v1)) = none := by
            simpa [findReleaseLoop, hq, hgt] using h
          obtain ⟨hb, _⟩ := ih date (some (k1, v1)) h2
          exact Option.noConfusion hb
        · have h2 : findReleaseLoop rest date (some (kb, vb)) = none := by
            simpa [findReleaseLoop, hq, hgt] using h
          obtain ⟨hb, _⟩ := ih date (some (kb, vb)) h2
          exact Option.noConfusion hb
    · have h2 : findReleaseLoop rest date best = none := by
        simpa [findReleaseLoop, hq] using h
      obtain ⟨hb, hrest⟩ := ih date best h2
      refine ⟨hb, ?_⟩
      intro p hp
      rcases List.mem_cons.mp hp with hp1 | hp2
      · rw [hp1]; exact hq
      · exact hrest p hp2

theorem findReleaseLoop_some_spec : ∀ (l : List (String × Nat)) (date : Nat)
    (best : Option (String × Nat)) (k : String) (v : Nat),
    (∀ k0 v0, best = some (k0, v0) → v0 ≤ date) →
    findReleaseLoop l date best = some (k, v) →
    ((k, v) ∈ l ∨ best = some (k, v)) ∧ v ≤ date
      ∧ (∀ p ∈ l, p.2 ≤ date → p.2 ≤ v)
      ∧ (∀ k0 v0, best = some (k0, v0) → v0 ≤ v) := by
  intro l
  induction l with
  | nil =>
    intro date best k v hbest h
    have hb : best = some (k, v) := h
    refine ⟨Or.inr hb, hbest k v hb, ?_, ?_⟩
    · intro p hp
      simp at hp
    · intro k0 v0 h0
      rw [h0] at hb
      injection hb with hb2
      injection hb2 with _ hb4
      rw [hb4]
  | cons q rest ih =>
    intro date best k v hbest h
    obtain ⟨k1, v1⟩ := q
    by_cases hq : v1 ≤ date
    · cases best with
      | none =>
        have h2 : findReleaseLoop rest date (some (k1, v1)) = some (k, v) := by
          simpa [findReleaseLoop, hq] using h
        obtain ⟨hmem, hvd, hmax, hge⟩ := ih date (some (k1, v1)) k v
          (by
            intro k0 v0 h0
            injection h0 with h02
            injection h02 with _ h04
            rw [← h04]
            exact hq) h2
        have hv1v : v1 ≤ v := hge k1 v1 rfl
        refine ⟨?_, hvd, ?_, ?_⟩
        · rcases hmem with hmem | hmem
          · exact Or.inl (List.mem_cons_of_mem _ hmem)
          · injection hmem with hmem2
            rw [hmem2]
            exact Or.inl (List.mem_cons_self _ _)
        · intro p hp _
          rcases List.mem_cons.mp hp with hp1 | hp2
          · rw [hp1]; exact hv1v
          · exact hmax p hp2 (by assumption)
        · intro k0 v0 h0
          exact Option.noConfusion h0
      | some b =>
        obtain ⟨kb, vb⟩ := b
        have hvb : vb ≤ date := hbest kb vb rfl
        by_cases hgt : v1 > vb
        · have h2 : findReleaseLoop rest date (some (k1, v1)) = some (k, v) := by
            simpa [findReleaseLoop, hq, hgt] using h
          obtain ⟨hmem, hvd, hmax, hge⟩ := ih date (some (k1, v1)) k v
            (by
              intro k0 v0 h0
              injection h0 with h02
              injection h02 with _ h04
              rw [← h04]
              exact hq) h2
          have hv1v : v1 ≤ v := hge k1 v1 rfl
          refine ⟨?_, hvd, ?_, ?_⟩
          · rcases hmem with hmem | hmem
            · exact Or.inl (List.mem_cons_of_mem _ hmem)
            · injection hmem with hmem2
              rw [hmem2]
              exact Or.inl (List.mem_cons_self _ _)
          · intro p hp _
            rcases List.mem_cons.mp hp with hp1 | hp2
            · rw [hp1]; exact hv1v
            · exact hmax p hp2 (by assumption)
          · intro k0 v0 h0
            injection h0 with h02
            injection h02 with _ h04
            rw [← h04]
            omega
        · have h2 : findReleaseLoop rest date (some (kb, vb)) = some (k, v) := by
            simpa [findReleaseLoop, hq, hgt] using h
          obtain ⟨hmem, hvd, hmax, hge⟩ := ih date (some (kb, vb)) k v
            (by
              intro k0 v0 h0
              injection h0 with h02
              injection h02 with _ h04
              rw [← h04]
              exact hvb) h2
          have hvbv : vb ≤ v := hge kb vb rfl
          refine ⟨?_, hvd, ?_, ?_⟩
          · rcases hmem with hmem | hmem
            · exact Or.inl (List.mem_cons_of_mem _ hmem)
            · exact Or.inr hmem
          · intro p hp hpd
            rcases List.mem_cons.mp hp with hp1 | hp2
            · rw [hp1]
              omega
            · exact hmax p hp2 hpd
          · intro k0 v0 h0
            injection h0 with h02
            injection h02 with _ h04
            rw [← h04]
            exact hvbv
    · have h2 : findReleaseLoop rest date best = some (k, v) := by
        simpa [findReleaseLoop, hq] using h
      obtain ⟨hmem, hvd, hmax, hge⟩ := ih date best k v hbest h2
      refine ⟨?_, hvd, ?_, hge⟩
      · rcases hmem with hmem | hmem
        · exact Or.inl (List.mem_cons_of_mem _ hmem)
        · exact Or.inr hmem
      · intro p hp hpd
        rcases List.mem_cons.mp hp with hp1 | hp2
        · rw [hp1] at hpd
          exact absurd hpd hq
        · exact hmax p hp2 hpd

theorem getVersionFromBuildDate_ok_spec (dt : Nat) (k : String)
    (h : getStockfishVersionFromBuildDate dt = .ok k) :
    ∃ d, (k, d) ∈ RELEASES ∧ d ≤ dt ∧ ∀ p ∈ RELEASES, p.2 ≤ dt → p.2 ≤ d := by
  cases hloop : findReleaseLoop RELEASES dt none with
  | none => simp [getStockfishVersionFromBuildDate, hloop] at h
  | some b =>
    obtain ⟨k2, v2⟩ := b
    have hk : k2 = k := by
      simpa [getStockfishVersionFromBuildDate, hloop] using h
    subst hk
    obtain ⟨hmem, hvd, hmax, _⟩ := findReleaseLoop_some_spec RELEASES dt none k2 v2
      (fun k0 v0 h0 => Option.noConfusion h0) hloop
    rcases hmem with hmem | hmem
    · exact ⟨v2, hmem, hvd, hmax⟩
    · exact Option.noConfusion hmem

theorem resolveDevDate_ok_spec (bd : List Char) (k2 : String)
    (h : resolveDevDate bd = .ok k2) :
    ∃ y m d : Int, pyInt (pySlice bd 0 4) = some y
      ∧ pyInt (pySlice bd 4 6) = some m ∧ pyInt (pySlice bd 6 8) = some d
      ∧ getStockfishVersionFromBuildDate (encodeDate y.toNat m.toNat d.toNat)
          = .ok k2 := by
  cases hy : pyInt (pySlice bd 0 4) with
  | none => simp [resolveDevDate, hy] at h
  | some y =>
    cases hm : pyInt (pySlice bd 4 6) with
    | none => simp [resolveDevDate, hy, hm] at h
    | some m =>
      cases hd : pyInt (pySlice bd 6 8) with
      | none => simp [resolveDevDate, hy, hm, hd] at h
      | some d =>
        by_cases hv : 0 ≤ y ∧ 0 ≤ m ∧ 0 ≤ d
            ∧ validDate y.toNat m.toNat d.toNat = true
        · refine ⟨y, m, d, rfl, rfl, rfl, ?_⟩
          simpa [resolveDevDate, hy, hm, hd, hv] using h
        · simp [resolveDevDate, hy, hm, hd, hv] at h

theorem resolveDDMMYY_ok_spec (bd : List Char) (k2 : String)
    (h : resolveDDMMYY bd = .ok k2) :
    ∃ y2 m d : Nat, digitsVal? (pySlice bd 4 6) = some y2
      ∧ digitsVal? (pySlice bd 2 4) = some m ∧ digitsVal? (pySlice bd 0 2) = some d
      ∧ validDate (2000 + y2) m d = true
      ∧ getStockfishVersionFromBuildDate (encodeDate (2000 + y2) m d) = .ok k2 := by
  cases hy : digitsVal? (pySlice bd 4 6) with
  | none => simp [resolveDDMMYY, hy] at h
  | some y2 =>
    cases hm : digitsVal? (pySlice bd 2 4) with
    | none => simp [resolveDDMMYY, hy, hm] at h
    | some m =>
      cases hd : digitsVal? (pySlice bd 0 2) with
      | none => simp [resolveDDMMYY, hy, hm, hd] at h
      | some d =>
        by_cases hv : validDate (2000 + y2) m d = true
        · refine ⟨y2, m, d, rfl, rfl, rfl, hv, ?_⟩
          simpa [resolveDDMMYY, hy, hm, hd, hv] using h
        · simp [resolveDDMMYY, hy, hm, hd, hv] at h

/-- C7: the build-date resolver returns a release from the static table
whose date is at-or-before the build date and maximal among qualifying
entries, and errors exactly when no table date is at-or-before the build
date; every successfully parsed version (resolved or literal) has
`full = major + minor / 10`; every well-formed `dev-YYYYMMDD-sha`
identifier resolves via exactly that resolver applied to the embedded
`YYYYMMDD` date; and every bare 6-digit `DDMMYY` identifier resolves via
the same resolver applied to the spliced `20YY-MM-DD` date. -/
theorem c7_version_resolution (dt : Nat) (s ds sha : List Char) (v : SFVersion) :
    (∀ k, getStockfishVersionFromBuildDate dt = .ok k →
        ∃ d, (k, d) ∈ RELEASES ∧ d ≤ dt ∧ ∀ p ∈ RELEASES, p.2 ≤ dt → p.2 ≤ d)
    ∧ ((∀ p ∈ RELEASES, ¬ p.2 ≤ dt) →
        getStockfishVersionFromBuildDate dt
          = .error "There was a problem with finding the release associated with the engine publish date.")
    ∧ (parseStockfishVersion s = .ok v →
        v.full = (v.major : ℚ) + (v.minor : ℚ) / 10)
    ∧ (ds.length = 8 → (∀ c ∈ ds, c.isDigit = true) → '-' ∉ sha →
        parseStockfishVersion ("dev-".toList ++ ds ++ '-' :: sha) = .ok v →
        v.isDevBuild = true ∧ v.patch = ds ∧ v.sha = sha
          ∧ ∃ resolvedKey, resolveDevDate ds = .ok resolvedKey
              ∧ v.text = resolvedKey.toList)
    ∧ (∀ bd k2, resolveDevDate bd = .ok k2 →
        ∃ y m d : Int, pyInt (pySlice bd 0 4) = some y
          ∧ pyInt (pySlice bd 4 6) = some m ∧ pyInt (pySlice bd 6 8) = some d
          ∧ getStockfishVersionFromBuildDate (encodeDate y.toNat m.toNat d.toNat)
              = .ok k2)
    ∧ (s.length = 6 → (∀ c ∈ s, c.isDigit = true) →
        parseStockfishVersion s = .ok v →
        v.isDevBuild = true ∧ v.patch = s
          ∧ ∃ resolvedKey6, resolveDDMMYY s = .ok resolvedKey6
              ∧ v.text = resolvedKey6.toList)
    ∧ (∀ bd k2, resolveDDMMYY bd = .ok k2 →
        ∃ y2 m d : Nat, digitsVal? (pySlice bd 4 6) = some y2
          ∧ digitsVal? (pySlice bd 2 4) = some m
          ∧ digitsVal? (pySlice bd 0 2) = some d
          ∧ validDate (2000 + y2) m d = true
          ∧ getStockfishVersionFromBuildDate (encodeDate (2000 + y2) m d)
              = .ok k2) := by
  refine ⟨fun k hk => getVersionFromBuildDate_ok_spec dt k hk, ?_, ?_, ?_,
    fun bd k2 hbd => resolveDevDate_ok_spec bd k2 hbd, ?_,
    fun bd k2 hbd => resolveDDMMYY_ok_spec bd k2 hbd⟩
  · intro hnone
    cases hloop : findReleaseLoop RELEASES dt none with
    | none => simp [getStockfishVersionFromBuildDate, hloop]
    | some b =>
      obtain ⟨k2, v2⟩ := b
      obtain ⟨hmem, hvd, _, _⟩ := findReleaseLoop_some_spec RELEASES dt none k2 v2
        (fun k0 v0 h0 => Option.noConfusion h0) hloop
      rcases hmem with hmem | hmem
      · exact absurd hvd (hnone (k2, v2) hmem)
      · exact Option.noConfusion hmem
  · intro hp
    cases hi : parseVersionInner s with
    | error e => simp [parseStockfishVersion, hi] at hp
    | ok w =>
      have hwv : w = v := by simpa [parseStockfishVersion, hi] using hp
      subst hwv
      cases h1 : versionStage1 s with
      | error e => simp [parseVersionInner, h1] at hi
      | ok t1 =>
        obtain ⟨isDev1, patch1, sha1, text1⟩ := t1
        cases h2 : versionStage2 isDev1 patch1 text1 with
        | error e => simp [parseVersionInner, h1, h2] at hi
        | ok t2 =>
          obtain ⟨isDev2, patch2, text2⟩ := t2
          cases h3 : parseMajorMinor text2 with
          | error e => simp [parseVersionInner, h1, h2, h3] at hi
          | ok mm =>
            obtain ⟨maj, minr⟩ := mm
            have hw : mkVersion patch2 sha1 isDev2 text2 maj minr = w := by
              simpa [parseVersionInner, h1, h2, h3] using hi
            rw [← hw]
            rfl
  · intro hlen hdig hsham hp
    have hdsm : '-' ∉ ds := fun hmem => absurd (hdig '-' hmem) (by decide)
    have heq : ("dev-".toList ++ ds ++ '-' :: sha)
        = "dev".toList ++ '-' :: (ds ++ '-' :: sha) := rfl
    have hstart : startsWithSeq ("dev-".toList)
        ("dev-".toList ++ ds ++ '-' :: sha) = true := rfl
    have hsplit : splitOnSep '-' ("dev-".toList ++ ds ++ '-' :: sha)
        = ["dev".toList, ds, sha] := by
      rw [heq, splitOnSep_append '-' ("dev".toList) _ (by decide),
        splitOnSep_append '-' ds _ hdsm, splitOnSep_not_mem '-' sha hsham]
    simp at hstart hsplit
    cases hr : resolveDevDate ds with
    | error e =>
      have h1 : versionStage1 ("dev-".toList ++ ds ++ '-' :: sha)
          = .error e := by
        simp [versionStage1, hstart, hsplit, hr]
      obtain ⟨devL, hdev⟩ : ∃ l, ("dev-".toList ++ ds ++ '-' :: sha) = l := ⟨_, rfl⟩
      rw [hdev] at hp h1
      simp [parseStockfishVersion, parseVersionInner, h1] at hp
    | ok rk =>
      have h1 : versionStage1 ("dev-".toList ++ ds ++ '-' :: sha)
          = .ok (true, ds, sha, rk.toList) := by
        simp [versionStage1, hstart, hsplit, hr]
      obtain ⟨y, m, d, _, _, _, hres⟩ := resolveDevDate_ok_spec ds rk hr
      obtain ⟨dd, hmem, _, _⟩ := getVersionFromBuildDate_ok_spec _ rk hres
      have hlen4 : rk.toList.length = 4 := by
        have hall : ∀ p ∈ RELEASES, p.1.toList.length = 4 := by decide
        exact hall (rk, dd) hmem
      have hlen4s : rk.length = 4 := hlen4
      have h2 : versionStage2 true ds rk.toList = .ok (true, ds, rk.toList) := by
        simp [versionStage2, hlen4s]
      obtain ⟨devL, hdev⟩ : ∃ l, ("dev-".toList ++ ds ++ '-' :: sha) = l := ⟨_, rfl⟩
      rw [hdev] at hp h1
      cases h3 : parseMajorMinor rk.toList with
      | error e =>
        simp only [parseStockfishVersion, parseVersionInner, h1, h2, h3] at hp
        exact Except.noConfusion hp
      | ok mm =>
        obtain ⟨maj, minr⟩ := mm
        have hres2 : parseStockfishVersion devL
            = .ok (mkVersion ds sha true rk.toList maj minr) := by
          simp only [parseStockfishVersion, parseVersionInner, h1, h2, h3]
        rw [hres2] at hp
        have hw : v = mkVersion ds sha true rk.toList maj minr :=
          (Except.ok.inj hp).symm
        rw [hw]
        exact ⟨rfl, rfl, rfl, rk, rfl, rfl⟩
  · intro hlen hdig hp
    obtain ⟨c0, s0, hs⟩ : ∃ c0 s0, s = c0 :: s0 := by
      cases s with
      | nil => simp at hlen
      | cons a t => exact ⟨a, t, rfl⟩
    subst hs
    have hc0 : c0.isDigit = true := hdig c0 (List.mem_cons_self _ _)
    have hc0d : ¬ ('d' = c0) := by
      intro hcd
      rw [← hcd] at hc0
      exact absurd hc0 (by decide)
    have hstart : startsWithSeq ("dev-".toList) (c0 :: s0) = false := by
      simp only [show ("dev-".toList) = 'd' :: "ev-".toList from rfl, startsWithSeq]
      simp [hc0d]
    have h1 : versionStage1 (c0 :: s0) = .ok (false, [], [], c0 :: s0) := by
      rw [versionStage1, if_neg]
      simpa using hstart
    cases hr : resolveDDMMYY (c0 :: s0) with
    | error e =>
      have h2 : versionStage2 false [] (c0 :: s0) = .error e := by
        rw [versionStage2, if_pos hlen, hr]
      simp only [parseStockfishVersion, parseVersionInner, h1, h2] at hp
      exact Except.noConfusion hp
    | ok rk =>
      have h2 : versionStage2 false [] (c0 :: s0)
          = .ok (true, c0 :: s0, rk.toList) := by
        rw [versionStage2, if_pos hlen, hr]
      cases h3 : parseMajorMinor rk.toList with
      | error e =>
        simp only [parseStockfishVersion, parseVersionInner, h1, h2, h3] at hp
        exact Except.noConfusion hp
      | ok mm =>
        obtain ⟨maj, minr⟩ := mm
        have hres2 : parseStockfishVersion (c0 :: s0)
            = .ok (mkVersion (c0 :: s0) [] true rk.toList maj minr) := by
          simp only [parseStockfishVersion, parseVersionInner, h1, h2, h3]
        rw [hres2] at hp
        have hw : v = mkVersion (c0 :: s0) [] true rk.toList maj minr :=
          (Except.ok.inj hp).symm
        rw [hw]
        exact ⟨rfl, rfl, rk, rfl, rfl⟩

/-- C7 witness: the theorem's dev-identifier conjunct applied to
`dev-20221219-61ea1534`, which resolves to release `15.1` (dated
2022-12-04, the latest at-or-before 2022-12-19), and its bare `DDMMYY`
conjunct applied to `280322` (28 March 2022), which resolves to release
`14.1` (dated 2021-10-28, the latest at-or-before 2022-03-28). -/
theorem c7_version_resolution_witness :
    (∃ resolvedKey, resolveDevDate ("20221219".toList) = .ok resolvedKey
      ∧ (mkVersion "20221219".toList "61ea1534".toList true "15.1".toList 15 1).text
          = resolvedKey.toList)
    ∧ (∃ resolvedKey6, resolveDDMMYY ("280322".toList) = .ok resolvedKey6
      ∧ (mkVersion "280322".toList [] true "14.1".toList 14 1).text
          = resolvedKey6.toList) :=
  ⟨((c7_version_resolution 20221219 [] ("20221219".toList) ("61ea1534".toList)
      (mkVersion "20221219".toList "61ea1534".toList true "15.1".toList 15 1)).2.2.2.1
    (by decide) (by decide) (by decide) (by rfl)).2.2.2,
   ((c7_version_resolution 20220328 ("280322".toList) [] []
      (mkVersion "280322".toList [] true "14.1".toList 14 1)).2.2.2.2.2.1
    (by decide) (by decide) (by rfl)).2.2⟩

/-- C10 witness: `True` is rejected by `set_depth` (stored depth 15 kept),
and a successful `set_num_nodes(7)` stores a positive integer. -/
theorem c10_set_depth_num_nodes_validation_witness :
    (setDepth 15 (.vBool true)
        = (15, some "TypeError: depth must be an integer higher than 0"))
    ∧ 1 ≤ (setNumNodes 1000000 (.vInt 7)).1 :=
  ⟨((c10_set_depth_num_nodes_validation 15 (.vBool true)).1 rfl).1,
   ((c10_set_depth_num_nodes_validation 1000000 (.vInt 7)).2.2 (by decide)).2⟩

end StockfishSpec
